import Mathlib

/-!
# Verification of the OpenCDK symmetric cipher filter (`libextra/opencdk/cipher.c`)

This file is a shallow embedding of the cipher filter of the OpenCDK part of
GnuTLS: the functions `write_header`, `write_mdc_packet`, `num2bits`, `pow2`,
`write_partial_block`, `cipher_encode_file`, `cipher_encode`, `read_header`,
`finalize_mdc`, `cipher_decode_file` and `cipher_decode` from
`src/libextra/opencdk/cipher.c`, together with theorems checking the
specification's claims about them.

Machine bytes are `Nat` values below 256.  C `FILE` streams are modelled as a
list of unconsumed bytes plus the stdio end-of-file indicator; `fread`
consumes `min` of the request and what remains, and raises the indicator
exactly when it returns fewer bytes than requested.  Fallible functions
return `Except Cerr`.  Stateful C code becomes explicit state passing; the
`while (!feof (in))` loops become fuel-indexed structural recursions, and the
public entry points supply fuel `|input| + 2`, which is shown (and used in
the proofs) to be enough because every continuing iteration consumes at least
one input byte.
-/

/-- The `cdk_error_t` values produced in `cipher.c`, as an inductive.
`Success` (0) is represented by `Except.ok`.  Two extra constructors are
modelling artefacts: `oob` marks a C out-of-bounds buffer access (undefined
behaviour in the source, flagged explicitly by the model exactly where a C
index escapes the buffer), and `out_of_fuel` is the value returned by a
fuel-indexed loop when its fuel runs out (never reached at the fuel supplied
by the entry points). -/
inductive Cerr where
  | inv_value
  | inv_algo
  | inv_mode
  | chksum
  | bad_mdc
  | inv_packet
  | eof
  | file_error
  | oob
  | out_of_fuel
deriving DecidableEq, Repr

/-- A C `FILE` stream opened for reading: the bytes not yet consumed and the
stdio end-of-file indicator. -/
structure CFile where
  buf : List Nat
  eof : Bool
deriving DecidableEq, Repr

/-- `fread (buf, 1, n, f)`: returns up to `n` bytes; the end-of-file
indicator becomes set exactly when fewer than `n` bytes were delivered. -/
def fread (n : Nat) (f : CFile) : List Nat × CFile :=
  let r := f.buf.take n
  (r, ⟨f.buf.drop n, f.eof || decide (r.length < n)⟩)

/-- `fgetc`: one byte, or `none` at end of file (setting the indicator). -/
def fgetc (f : CFile) : Option Nat × CFile :=
  match f.buf with
  | [] => (none, ⟨[], true⟩)
  | b :: rest => (some b, ⟨rest, f.eof⟩)

/-- `n` consecutive `fgetc` calls, failing if any of them hits end of file
(this is the `for` loop reading the prefix in `read_header`). -/
def fgetc_n : Nat → CFile → Option (List Nat) × CFile
  | 0, f => (some [], f)
  | n + 1, f =>
    match fgetc f with
    | (none, f1) => (none, f1)
    | (some c, f1) =>
      match fgetc_n n f1 with
      | (none, f2) => (none, f2)
      | (some cs, f2) => (some (c :: cs), f2)

/-- Modelled from the spec: the external cipher library handle
(libgcrypt, not part of `src/`), §4.1 Cipher Engine.  The block cipher under
the session key is the abstract block function `E`; the handle keeps the CFB
feedback data: `recent` is the list of ciphertext bytes produced so far,
most recent first (only the last `bs` of them matter; the register is this
history padded with the zero IV set by `gcry_cipher_setiv (hd, NULL, 0)`),
and `pend` is the not-yet-consumed tail of the current keystream block.
`syncEnabled` records the `GCRY_CIPHER_ENABLE_SYNC` open flag: per §4.1 the
resynchronization step does nothing when it is off. -/
structure GcryCipher where
  E : List Nat → List Nat
  bs : Nat
  syncEnabled : Bool
  recent : List Nat
  pend : List Nat

/-- The CFB feedback register: the last `bs` ciphertext bytes, oldest first,
padded at the old end with the zero IV. -/
def cfbReg (c : GcryCipher) : List Nat :=
  ((c.recent ++ List.replicate c.bs 0).take c.bs).reverse

/-- Encrypt one byte in CFB mode: XOR with the next keystream byte,
regenerating the keystream from the register when the block is used up; the
produced ciphertext byte enters the feedback history. -/
def cfbEncByte (c : GcryCipher) (p : Nat) : GcryCipher × Nat :=
  match c.pend with
  | [] =>
    let ks := c.E (cfbReg c)
    let ct := p ^^^ ks.headD 0
    ({ c with recent := ct :: c.recent, pend := ks.tail }, ct)
  | k :: rest =>
    let ct := p ^^^ k
    ({ c with recent := ct :: c.recent, pend := rest }, ct)

/-- Decrypt one byte in CFB mode: same keystream, the consumed ciphertext
byte enters the feedback history. -/
def cfbDecByte (c : GcryCipher) (ct : Nat) : GcryCipher × Nat :=
  match c.pend with
  | [] =>
    let ks := c.E (cfbReg c)
    let pt := ct ^^^ ks.headD 0
    ({ c with recent := ct :: c.recent, pend := ks.tail }, pt)
  | k :: rest =>
    let pt := ct ^^^ k
    ({ c with recent := ct :: c.recent, pend := rest }, pt)

/-- `gcry_cipher_encrypt (hd, buf, n, NULL, 0)`: in-place CFB encryption of a
byte range. -/
def gcry_cipher_encrypt : GcryCipher → List Nat → GcryCipher × List Nat
  | c, [] => (c, [])
  | c, p :: ps =>
    let s := cfbEncByte c p
    let r := gcry_cipher_encrypt s.1 ps
    (r.1, s.2 :: r.2)

/-- `gcry_cipher_decrypt (hd, buf, n, NULL, 0)`: in-place CFB decryption. -/
def gcry_cipher_decrypt : GcryCipher → List Nat → GcryCipher × List Nat
  | c, [] => (c, [])
  | c, ct :: cs =>
    let s := cfbDecByte c ct
    let r := gcry_cipher_decrypt s.1 cs
    (r.1, s.2 :: r.2)

/-- `gcry_cipher_sync`: the OpenPGP CFB resynchronization.  It discards the
unused keystream tail, so the next block is generated from the most recent
ciphertext bytes; it is a no-op unless the handle was opened with
`GCRY_CIPHER_ENABLE_SYNC`. -/
def gcry_cipher_sync (c : GcryCipher) : GcryCipher :=
  if c.syncEnabled then { c with pend := [] } else c

/-- Modelled from the spec: the external hash library handle (libgcrypt
SHA-1, not part of `src/`), §4.2 Integrity Accumulator: an accumulator of
the bytes written so far, whose finalized digest is the abstract digest
function `H` of the accumulated bytes. -/
structure GcryMd where
  H : List Nat → List Nat
  acc : List Nat

/-- `gcry_md_write`: feed bytes into the accumulator. -/
def gcry_md_write (m : GcryMd) (b : List Nat) : GcryMd :=
  { m with acc := m.acc ++ b }

/-- `gcry_md_final` followed by `gcry_md_read`: the 20-byte SHA-1 digest of
the accumulated bytes (the digest length of SHA-1 is fixed at 20, §4.2, so
the result is truncated or zero-padded to exactly 20 bytes). -/
def md_read (m : GcryMd) : List Nat :=
  (m.H m.acc ++ List.replicate 20 0).take 20

/-- Modelled from the spec: `BUFSIZE` from `main.h` (not in `src/`), the
fixed buffer-size constant `MAX_CHUNK = 8192` of §4.3 and §8. -/
def BUFSIZE : Nat := 8192

/-- Modelled from the spec: `DEF_BLOCKBITS` from `main.h` (not in `src/`);
the partial-length announcement of a `BUFSIZE`-byte chunk is the byte
`0xE0 ||| DEF_BLOCKBITS`, so `2 ^ DEF_BLOCKBITS = BUFSIZE = 8192` gives
`DEF_BLOCKBITS = 13` (§4.3, §8). -/
def DEF_BLOCKBITS : Nat := 13

/-- The parts of `cdk_dek_t` read by `cipher.c`: the block length of the
algorithm (`gcry_cipher_get_algo_blklen (dek->algo)`), the keyed block
function standing for algorithm plus key bytes, and the two mode flags. -/
structure cdk_dek where
  bs : Nat
  E : List Nat → List Nat
  use_mdc : Bool
  rfc1991 : Bool

/-- The `blkmode` sub-struct of `cipher_filter_t`: partial-length framing
state.  `nleft` is the encode-side chunk budget, `size` the decode-side
current chunk size. -/
structure blkmode_t where
  on' : Bool
  nleft : Nat
  size : Nat

/-- `cipher_filter_t`: per-stream filter context.  `sha1` is the digest
function installed into the hash handle when `gcry_md_open (.., SHA1, ..)`
runs; `mdc_method` is the decode-side flag set by the outer packet parser
from the packet tag (nonzero iff the packet was integrity protected). -/
structure cipher_filter where
  dek : cdk_dek
  datalen : Nat
  blkmode : blkmode_t
  mdc : Option GcryMd
  hd : Option GcryCipher
  mdc_method : Bool
  sha1 : List Nat → List Nat

/-- `gcry_md_write` on the optional accumulator of the filter (the
`if (cfx->mdc) gcry_md_write (cfx->mdc, ..)` pattern). -/
def mdWrite (cfx : cipher_filter) (b : List Nat) : cipher_filter :=
  { cfx with mdc := cfx.mdc.map (fun m => gcry_md_write m b) }

/-- The fields of the `cdk_pkt_encrypted_t` packet record that
`write_header` fills in before handing it to the packet writer
`_cdk_pkt_write_fp` (which lives outside `src/`): the chosen packet type,
the old-style-tag flag, and the declared lengths. -/
structure EncHeader where
  is_mdc : Bool
  old_ctb : Bool
  len : Nat
  extralen : Nat
deriving DecidableEq, Repr

/-- `write_header` from `cipher.c`: validates the block size, forces MDC on
for non-8-byte blocks, adds 22 to a known nonzero data length when MDC is
active, fills the packet record, opens the hash and cipher handles, builds
the random prefix `rand ++ [rand[bs-2], rand[bs-1]]` (the `rand` argument
stands for the `gcry_randomize` output), hashes it in clear, encrypts it,
syncs, and adjusts the block-mode budget.  Returns the updated filter, the
packet record and the body bytes written (the encrypted prefix; the packet
header bytes emitted by `_cdk_pkt_write_fp` are not part of the body). -/
def write_header (cfx : cipher_filter) (rand : List Nat) :
    Except Cerr (cipher_filter × EncHeader × List Nat) :=
  let dek := cfx.dek
  let blocksize := dek.bs
  if blocksize < 8 ∨ blocksize > 16 then .error .inv_algo else
  let use_mdc := if blocksize ≠ 8 then true else dek.use_mdc
  let cfx := if use_mdc ∧ cfx.datalen ≠ 0 then
      { cfx with datalen := cfx.datalen + 22 } else cfx
  let hdrFields : Nat × Nat := if cfx.blkmode.on' then (0, 0)
      else (cfx.datalen, blocksize + 2)
  let cfx := if cfx.blkmode.on' then { cfx with blkmode.nleft := BUFSIZE } else cfx
  let cfx := if use_mdc then { cfx with mdc := some ⟨cfx.sha1, []⟩ } else cfx
  let hdr : EncHeader :=
    { is_mdc := use_mdc
      old_ctb := dek.rfc1991 && !cfx.blkmode.on'
      len := hdrFields.1
      extralen := hdrFields.2 }
  let npfx := blocksize
  let temp := rand.take npfx ++ [rand.getD (npfx - 2) 0, rand.getD (npfx - 1) 0]
  let hd0 : GcryCipher :=
    { E := dek.E, bs := blocksize, syncEnabled := !use_mdc, recent := [], pend := [] }
  let cfx := mdWrite cfx temp
  let encres := gcry_cipher_encrypt hd0 temp
  let cfx := { cfx with hd := some (gcry_cipher_sync encres.1) }
  let cfx := if cfx.blkmode.on' then
      { cfx with blkmode.nleft :=
          cfx.blkmode.nleft - (blocksize + 2) - (if use_mdc then 22 + 1 else 0) }
    else cfx
  .ok (cfx, hdr, encres.2)

/-- `write_mdc_packet`: hash the fixed 2-byte MDC packet prefix `0xD3 0x14`,
finalize, encrypt prefix plus 20-byte digest under the continuing keystream
and emit those 22 bytes.  Returns the updated filter and the bytes written.
The `!out || !cfx` null checks of the C code have no counterpart here; a
missing hash or cipher handle (a null pointer dereference in C) is reported
as `inv_value`. -/
def write_mdc_packet (cfx : cipher_filter) : Except Cerr (cipher_filter × List Nat) :=
  match cfx.mdc, cfx.hd with
  | some md, some hd =>
    let md1 := gcry_md_write md [0xd3, 0x14]
    let pktdata := 0xd3 :: 0x14 :: md_read md1
    let encres := gcry_cipher_encrypt hd pktdata
    .ok ({ cfx with mdc := some md1, hd := some encres.1 }, encres.2)
  | _, _ => .error .inv_value

/-- The loop of `num2bits`, with an explicit fuel argument (the C loop
`for (i = 0; n > 1; i++) n >>= 1` halves `n` each step, so fuel `n`
suffices). -/
def num2bits_go : Nat → Nat → Nat → Nat
  | 0, _, i => i
  | fuel + 1, n, i => if n > 1 then num2bits_go fuel (n >>> 1) (i + 1) else i

/-- `num2bits` from `cipher.c`: `-1` for 0, otherwise the index of the most
significant bit, i.e. `floor (log2 n)`. -/
def num2bits (n : Nat) : Int :=
  if n = 0 then -1 else num2bits_go n n 0

/-- `pow2` from `cipher.c`: `x = 1; x <<= 1` repeated `y` times. -/
def pow2 (y : Nat) : Nat := 1 <<< y

/-- `write_partial_block` from `cipher.c`.  When the current chunk budget
`blkmode.nleft` is exhausted it announces the next chunk: a `BUFSIZE` chunk
(`0xE0 ||| DEF_BLOCKBITS`) while more than `BUFSIZE` bytes remain, a
power-of-two chunk (`0xE0 ||| num2bits remaining`) while more than 512
remain, and otherwise the final chunk with the two-tier definite-length
encoding (note that in the two-byte tier the C code updates `pktlen` to
`pktlen - 192` *before* storing it into `blkmode.nleft` and subtracting it
from `*r_len`, which this model reproduces).  When the budget is not
exhausted, `*r_len` is reduced by it.  Then up to
`min (nleft, BUFSIZE + 1)` bytes are read, hashed, encrypted and emitted.
`r_len` is the signed `off_t` the C code passes by pointer.  Returns
(status, stream, new `r_len`, filter, bytes written). -/
def write_partial_block (f : CFile) (r_len : Int) (cfx : cipher_filter) :
    (Except Cerr Unit) × CFile × Int × cipher_filter × List Nat :=
  let step : Int × cipher_filter × List Nat :=
    if cfx.blkmode.nleft = 0 then
      if r_len > (BUFSIZE : Int) then
        (r_len - (BUFSIZE : Int), { cfx with blkmode.nleft := BUFSIZE },
         [0xE0 ||| DEF_BLOCKBITS])
      else if r_len > 512 then
        let n := (num2bits r_len.toNat).toNat
        let nl := pow2 n
        (r_len - (nl : Int), { cfx with blkmode.nleft := nl }, [0xE0 ||| n])
      else
        let pktlen := r_len.toNat
        let res : Nat × List Nat :=
          if pktlen < 192 then (pktlen, [pktlen])
          else if pktlen < 8384 then
            (pktlen - 192, [(pktlen - 192) / 256 + 192, (pktlen - 192) % 256])
          else (pktlen, [])
        (r_len - (res.1 : Int), { cfx with blkmode.nleft := res.1 }, res.2)
    else
      (r_len - (cfx.blkmode.nleft : Int), cfx, [])
  let r_len1 := step.1
  let cfx1 := step.2.1
  let ann := step.2.2
  let n := min cfx1.blkmode.nleft (BUFSIZE + 1)
  let rd := fread n f
  let bufr := rd.1
  let f1 := rd.2
  if bufr.length = 0 then (.error .eof, f1, r_len1, cfx1, ann)
  else
    let cfx2 := mdWrite cfx1 bufr
    match cfx2.hd with
    | none => (.error .inv_value, f1, r_len1, cfx2, ann)
    | some h =>
      let encres := gcry_cipher_encrypt h bufr
      (.ok (), f1, r_len1,
       { cfx2 with hd := some encres.1,
                   blkmode.nleft := cfx2.blkmode.nleft - bufr.length },
       ann ++ encres.2)

/-- The `while (!feof (in))` loop of `cipher_encode_file`, fuel-indexed.
In block mode it calls `write_partial_block` and stops on its error
(keeping the bytes the call already wrote); otherwise it reads up to
`BUFSIZE` bytes, hashes them if MDC is active, encrypts and emits them.
Returns (status, filter, stream, `len2`, bytes written). -/
def encode_loop : Nat → cipher_filter → CFile → Int → List Nat →
    (Except Cerr Unit) × cipher_filter × CFile × Int × List Nat
  | 0, cfx, f, len2, out => (.error .out_of_fuel, cfx, f, len2, out)
  | fuel + 1, cfx, f, len2, out =>
    if f.eof then (.ok (), cfx, f, len2, out)
    else if cfx.blkmode.on' then
      match write_partial_block f len2 cfx with
      | (.error e, f1, len3, cfx1, w) => (.error e, cfx1, f1, len3, out ++ w)
      | (.ok _, f1, len3, cfx1, w) => encode_loop fuel cfx1 f1 len3 (out ++ w)
    else
      let rd := fread BUFSIZE f
      let bufr := rd.1
      let f1 := rd.2
      if bufr.length = 0 then (.ok (), cfx, f1, len2, out)
      else
        let cfx1 := mdWrite cfx bufr
        match cfx1.hd with
        | none => (.error .inv_value, cfx1, f1, len2, out)
        | some h =>
          let encres := gcry_cipher_encrypt h bufr
          encode_loop fuel { cfx1 with hd := some encres.1 } f1 len2 (out ++ encres.2)

/-- `cipher_encode_file` from `cipher.c`: determine the stream length
(`fp_get_length`), run the encode loop, and if it ended without error and
MDC is active emit the MDC packet.  Returns (status, filter, body bytes
written by this function). -/
def cipher_encode_file (cfx : cipher_filter) (f : CFile) :
    (Except Cerr Unit) × cipher_filter × List Nat :=
  let len : Int := (f.buf.length : Int)
  match encode_loop (f.buf.length + 2) cfx f len [] with
  | (.error e, cfx1, _, _, out) => (.error e, cfx1, out)
  | (.ok _, cfx1, _, _, out) =>
    match cfx1.mdc with
    | some _ =>
      match write_mdc_packet cfx1 with
      | .error e => (.error e, cfx1, out)
      | .ok (cfx2, w) => (.ok (), cfx2, out ++ w)
    | none => (.ok (), cfx1, out)

/-- `cipher_encode` from `cipher.c`: record the total input length in
`datalen`, drop to definite-length mode when the input is shorter than
`BUFSIZE`, write the header and encode the body.  Returns (status, packet
record from the header writer, body bytes: encrypted prefix, encrypted
body with inline partial-length announcements, and — when written — the
encrypted MDC trailer). -/
def cipher_encode (cfx : cipher_filter) (f : CFile) (rand : List Nat) :
    (Except Cerr Unit) × Option EncHeader × List Nat :=
  let cfx := { cfx with datalen := f.buf.length }
  let cfx := if cfx.datalen < BUFSIZE ∧ cfx.blkmode.on' then
      { cfx with blkmode.on' := false } else cfx
  match write_header cfx rand with
  | .error e => (.error e, none, [])
  | .ok (cfx1, hdr, pfx) =>
    match cipher_encode_file cfx1 f with
    | (rc, _, out) => (rc, some hdr, pfx ++ out)

/-- Modelled from the spec: `_cdk_pkt_read_len` (in the packet parser, not
part of `src/`), per §4.3 decode side and §6: a byte with the top three
bits set announces a partial chunk of `2 ^ (byte & 0x1F)` bytes and leaves
partial mode on; a byte below 192 is a one-byte definite length; bytes
192..254 start the two-byte definite encoding; 255 starts the five-byte
encoding (4-byte big-endian length); every definite length ends partial
mode.  Returns `none` at end of file (the `(size_t) EOF` return). -/
def cdk_pkt_read_len (f : CFile) : Option (Nat × Bool) × CFile :=
  match fgetc f with
  | (none, f1) => (none, f1)
  | (some c, f1) =>
    if 224 ≤ c ∧ c ≤ 254 then (some (pow2 (c % 32), true), f1)
    else if c < 192 then (some (c, false), f1)
    else if c ≤ 254 then
      match fgetc f1 with
      | (none, f2) => (none, f2)
      | (some c2, f2) => (some ((c - 192) * 256 + c2 + 192, false), f2)
    else
      match fgetc_n 4 f1 with
      | (none, f2) => (none, f2)
      | (some bs4, f2) =>
        (some (bs4.foldl (fun a b => a * 256 + b) 0, false), f2)

/-- `read_header` from `cipher.c`: validate the block size, open the hash
handle when the packet tag announced MDC, open the cipher handle (sync
enabled only without MDC), read the `blocksize + 2` prefix bytes byte by
byte, decrypt them, sync, check the two self-check bytes, hash the
decrypted prefix, and in block mode subtract the prefix length from the
current chunk size.  Returns the updated filter and stream. -/
def read_header (cfx : cipher_filter) (f : CFile) :
    Except Cerr (cipher_filter × CFile) :=
  let dek := cfx.dek
  let blocksize := dek.bs
  if blocksize < 8 ∨ blocksize > 16 then .error .inv_algo else
  let npfx := blocksize
  if 0 < cfx.datalen ∧ cfx.datalen < npfx + 2 then .error .inv_value else
  let cfx := if cfx.mdc_method then { cfx with mdc := some ⟨cfx.sha1, []⟩ } else cfx
  let hd0 : GcryCipher :=
    { E := dek.E, bs := blocksize, syncEnabled := !cfx.mdc_method,
      recent := [], pend := [] }
  match fgetc_n (npfx + 2) f with
  | (none, _) => .error .file_error
  | (some temp, f1) =>
    let decres := gcry_cipher_decrypt hd0 temp
    let hd2 := gcry_cipher_sync decres.1
    let ptemp := decres.2
    if ptemp.getD (npfx - 2) 0 ≠ ptemp.getD npfx 0 ∨
       ptemp.getD (npfx - 1) 0 ≠ ptemp.getD (npfx + 1) 0 then
      .error .chksum
    else
      let cfx := mdWrite cfx ptemp
      let cfx := { cfx with hd := some hd2 }
      let cfx := if cfx.blkmode.on' then
          { cfx with blkmode.size := cfx.blkmode.size - (npfx + 2) } else cfx
      .ok (cfx, f1)

/-- `finalize_mdc` from `cipher.c`, called with the decrypted bytes of the
final read (`buf.length = nread`).  The C code indexes `buf [nread - 22]`
and `buf [nread - 21]` with `int` arithmetic, so when fewer than 22 bytes
were just read the accesses fall before the buffer: the model returns the
`oob` marker there.  Otherwise: if the two tag bytes are not `0xD3 0x14`
the result is `inv_packet`; else the first `nread - 20` bytes are hashed,
the digest finalized, and a mismatch with the trailing 20 bytes is
`bad_mdc`. -/
def finalize_mdc (md : GcryMd) (buf : List Nat) (nread : Nat) :
    Except Cerr Unit :=
  if nread < 22 then .error .oob
  else if buf.getD (nread - 20 - 2) 0 = 0xD3 ∧ buf.getD (nread - 20 - 1) 0 = 0x14 then
    let md1 := gcry_md_write md (buf.take (nread - 20))
    if md_read md1 = (buf.drop (nread - 20)).take 20 then .ok ()
    else .error .bad_mdc
  else .error .inv_packet

/-- The `while (!feof (in))` loop of `cipher_decode_file`, fuel-indexed.
Each round reads the current chunk size in block mode (`BUFSIZE`
otherwise), decrypts it, and either (if that read hit end of file and MDC
is active) verifies the MDC trailer and withholds its 22 bytes from the
output, or hashes and emits the decrypted bytes; in block mode the next
chunk length is then parsed from the stream.  Returns (status, filter,
stream, plaintext written). -/
def decode_loop : Nat → cipher_filter → CFile → List Nat →
    (Except Cerr Unit) × cipher_filter × CFile × List Nat
  | 0, cfx, f, out => (.error .out_of_fuel, cfx, f, out)
  | fuel + 1, cfx, f, out =>
    if f.eof then (.ok (), cfx, f, out)
    else
      let nreq := if cfx.blkmode.on' then cfx.blkmode.size else BUFSIZE
      let rd := fread nreq f
      let bufr := rd.1
      let f1 := rd.2
      if bufr.length = 0 then (.ok (), cfx, f1, out)
      else
        match cfx.hd with
        | none => (.error .inv_value, cfx, f1, out)
        | some h =>
          let decres := gcry_cipher_decrypt h bufr
          let pt := decres.2
          let cfx1 := { cfx with hd := some decres.1 }
          let fin : (Except Cerr Unit) × cipher_filter × List Nat :=
            if f1.eof ∧ cfx1.mdc.isSome then
              match cfx1.mdc with
              | some md =>
                match finalize_mdc md pt pt.length with
                | .error e => (.error e, cfx1, [])
                | .ok _ => (.ok (), cfx1, pt.take (pt.length - 22))
              | none => (.error .inv_value, cfx1, [])
            else (.ok (), mdWrite cfx1 pt, pt)
          match fin with
          | (.error e, cfx2, _) => (.error e, cfx2, f1, out)
          | (.ok _, cfx2, w) =>
            let out1 := out ++ w
            if cfx2.blkmode.on' then
              match cdk_pkt_read_len f1 with
              | (none, f2) => (.error .inv_packet, cfx2, f2, out1)
              | (some (sz, onb), f2) =>
                decode_loop fuel
                  { cfx2 with blkmode := ⟨onb, cfx2.blkmode.nleft, sz⟩ } f2 out1
            else decode_loop fuel cfx2 f1 out1

/-- `cipher_decode_file` from `cipher.c`: the decode loop at fuel
`|input| + 2`; the C function returns 0 when the loop leaves normally.
Returns (status, filter, stream, plaintext written). -/
def cipher_decode_file (cfx : cipher_filter) (f : CFile) :
    (Except Cerr Unit) × cipher_filter × CFile × List Nat :=
  decode_loop (f.buf.length + 2) cfx f []

/-- `cipher_decode` from `cipher.c`: `read_header` then
`cipher_decode_file`; a header error aborts with no plaintext released.
Returns (status, plaintext written to the output stream). -/
def cipher_decode (cfx : cipher_filter) (f : CFile) :
    (Except Cerr Unit) × List Nat :=
  match read_header cfx f with
  | .error e => (.error e, [])
  | .ok (cfx1, f1) =>
    match cipher_decode_file cfx1 f1 with
    | (rc, _, _, out) => (rc, out)

/-- An encode-side filter context as the library sets it up before calling
`_cdk_filter_cipher (.., STREAMCTL_WRITE, ..)`: a fresh context holding the
session key data, with block mode preselected by the caller and no handles
open yet. -/
def encCfg (bs : Nat) (E Hh : List Nat → List Nat) (use_mdc blk : Bool) :
    cipher_filter :=
  { dek := ⟨bs, E, use_mdc, false⟩
    datalen := 0
    blkmode := ⟨blk, 0, 0⟩
    mdc := none
    hd := none
    mdc_method := false
    sha1 := Hh }

/-- A decode-side filter context as the outer packet parser sets it up
after reading the packet tag: `mdc_method` records whether the tag was the
integrity-protected one, and in the definite-length case no block mode is
engaged. -/
def decCfg (bs : Nat) (E Hh : List Nat → List Nat) (mdc_expected : Bool) :
    cipher_filter :=
  { dek := ⟨bs, E, false, false⟩
    datalen := 0
    blkmode := ⟨false, 0, 0⟩
    mdc := none
    hd := none
    mdc_method := mdc_expected
    sha1 := Hh }

/-- Encode plaintext `P`: status, the packet record handed to the packet
writer, and the packet body bytes. -/
def encodeBytes (bs : Nat) (E Hh : List Nat → List Nat) (use_mdc blk : Bool)
    (rand P : List Nat) : (Except Cerr Unit) × Option EncHeader × List Nat :=
  cipher_encode (encCfg bs E Hh use_mdc blk) ⟨P, false⟩ rand

/-- Decode a packet body `C`: status and the plaintext released. -/
def decodeBytes (bs : Nat) (E Hh : List Nat → List Nat) (mdc_expected : Bool)
    (C : List Nat) : (Except Cerr Unit) × List Nat :=
  cipher_decode (decCfg bs E Hh mdc_expected) ⟨C, false⟩

/-- A degenerate block function: all-zero keystream (encryption is then the
identity on bytes), used to instantiate witnesses and counterexamples. -/
def zeroE (bs : Nat) : List Nat → List Nat := fun _ => List.replicate bs 0

/-- A degenerate digest function for witnesses and counterexamples. -/
def zeroH : List Nat → List Nat := fun _ => List.replicate 20 0

/-! ## Basic facts about the CFB model -/

theorem cfbDecByte_cfbEncByte (c : GcryCipher) (p : Nat) :
    cfbDecByte c (cfbEncByte c p).2 = ((cfbEncByte c p).1, p) := by
  unfold cfbEncByte cfbDecByte
  cases hp : c.pend with
  | nil => simp [Nat.xor_cancel_right]
  | cons k rest => simp [Nat.xor_cancel_right]

theorem gcry_dec_enc (c : GcryCipher) (ps : List Nat) :
    gcry_cipher_decrypt c (gcry_cipher_encrypt c ps).2 =
      ((gcry_cipher_encrypt c ps).1, ps) := by
  induction ps generalizing c with
  | nil => rfl
  | cons p ps ih =>
    simp only [gcry_cipher_encrypt, gcry_cipher_decrypt, cfbDecByte_cfbEncByte, ih]

theorem gcry_enc_append (c : GcryCipher) (a b : List Nat) :
    gcry_cipher_encrypt c (a ++ b) =
      ((gcry_cipher_encrypt (gcry_cipher_encrypt c a).1 b).1,
       (gcry_cipher_encrypt c a).2 ++ (gcry_cipher_encrypt (gcry_cipher_encrypt c a).1 b).2) := by
  induction a generalizing c with
  | nil => simp [gcry_cipher_encrypt]
  | cons x xs ih => simp [gcry_cipher_encrypt, ih]

theorem gcry_dec_append (c : GcryCipher) (a b : List Nat) :
    gcry_cipher_decrypt c (a ++ b) =
      ((gcry_cipher_decrypt (gcry_cipher_decrypt c a).1 b).1,
       (gcry_cipher_decrypt c a).2 ++ (gcry_cipher_decrypt (gcry_cipher_decrypt c a).1 b).2) := by
  induction a generalizing c with
  | nil => simp [gcry_cipher_decrypt]
  | cons x xs ih => simp [gcry_cipher_decrypt, ih]

theorem gcry_enc_length (c : GcryCipher) (ps : List Nat) :
    (gcry_cipher_encrypt c ps).2.length = ps.length := by
  induction ps generalizing c with
  | nil => rfl
  | cons p ps ih => simp [gcry_cipher_encrypt, ih]

theorem gcry_dec_length (c : GcryCipher) (cs : List Nat) :
    (gcry_cipher_decrypt c cs).2.length = cs.length := by
  induction cs generalizing c with
  | nil => rfl
  | cons x cs ih => simp [gcry_cipher_decrypt, ih]

/-! ## Characterization of the encode path in definite-length mode -/

/-- A freshly opened CFB handle: zero IV, empty keystream. -/
def openCipher (bs : Nat) (E : List Nat → List Nat) (sync : Bool) : GcryCipher :=
  ⟨E, bs, sync, [], []⟩

/-- The plaintext prefix written by `write_header`: `blocksize` random bytes
followed by a repeat of the last two of them. -/
def pfxPlain (bs : Nat) (rand : List Nat) : List Nat :=
  rand.take bs ++ [rand.getD (bs - 2) 0, rand.getD (bs - 1) 0]

/-- The plaintext MDC trailer: the fixed two tag bytes and the 20-byte
digest of `hashed` (which, at its use sites, is prefix ++ body ++ the two
tag bytes — the tag bytes are hashed last, before finalization). -/
def mdcTrailer (Hh : List Nat → List Nat) (hashed : List Nat) : List Nat :=
  0xD3 :: 0x14 :: md_read ⟨Hh, hashed⟩

theorem mdcTrailer_length (Hh : List Nat → List Nat) (hashed : List Nat) :
    (mdcTrailer Hh hashed).length = 22 := by
  simp [mdcTrailer, md_read]

theorem write_header_definite (bs : Nat) (E Hh : List Nat → List Nat)
    (umdc : Bool) (d : Nat) (rand : List Nat) (h8 : 8 ≤ bs) (h16 : bs ≤ 16) :
    write_header { encCfg bs E Hh umdc false with datalen := d } rand =
      (let use_mdc : Bool := if bs ≠ 8 then true else umdc
       let d2 := if use_mdc ∧ d ≠ 0 then d + 22 else d
       let e := gcry_cipher_encrypt (openCipher bs E (!use_mdc)) (pfxPlain bs rand)
       .ok ({ encCfg bs E Hh umdc false with
                datalen := d2
                mdc := if use_mdc then some ⟨Hh, pfxPlain bs rand⟩ else none
                hd := some (gcry_cipher_sync e.1) },
            ⟨use_mdc, false, d2, bs + 2⟩, e.2)) := by
  unfold write_header
  simp only [encCfg, openCipher, pfxPlain, mdWrite]
  split_ifs with hbs hdm hm hm2 <;> first
    | (exfalso; omega)
    | (simp_all [gcry_md_write, mdWrite]
       try rfl)

theorem mdWrite_nil (cfx : cipher_filter) : mdWrite cfx [] = cfx := by
  cases cfx with
  | mk dek d blk mdc hd mm sh =>
    cases mdc <;> simp [mdWrite, gcry_md_write]

theorem mdWrite_append (cfx : cipher_filter) (a b : List Nat) :
    mdWrite (mdWrite cfx a) b = mdWrite cfx (a ++ b) := by
  cases cfx with
  | mk dek d blk mdc hd mm sh =>
    cases mdc <;> simp [mdWrite, gcry_md_write]

theorem mdWrite_hd (cfx : cipher_filter) (a : List Nat) :
    (mdWrite cfx a).hd = cfx.hd := rfl

theorem mdWrite_blk (cfx : cipher_filter) (a : List Nat) :
    (mdWrite cfx a).blkmode = cfx.blkmode := rfl

theorem mdWrite_set_hd (cfx : cipher_filter) (a : List Nat) (x : Option GcryCipher) :
    { mdWrite cfx a with hd := x } = mdWrite { cfx with hd := x } a := rfl

theorem encode_loop_definite (fuel : Nat) (P : List Nat) (cfx : cipher_filter)
    (h : GcryCipher) (out : List Nat) (len2 : Int)
    (hblk : cfx.blkmode.on' = false) (hhd : cfx.hd = some h)
    (hfuel : P.length + 2 ≤ fuel) :
    encode_loop fuel cfx ⟨P, false⟩ len2 out =
      (.ok (), { mdWrite cfx P with hd := some (gcry_cipher_encrypt h P).1 },
       ⟨[], true⟩, len2, out ++ (gcry_cipher_encrypt h P).2) := by
  induction fuel generalizing P cfx h out with
  | zero => omega
  | succ fuel ih =>
    have hB : BUFSIZE = 8192 := rfl
    by_cases hP : P = []
    · subst hP
      simp [encode_loop, fread, mdWrite_nil, ← hhd, gcry_cipher_encrypt, hblk, BUFSIZE]
    · have hlen : 0 < P.length := List.length_pos.mpr hP
      have htake : (P.take BUFSIZE).length = min BUFSIZE P.length := List.length_take _ _
      have h0 : ¬ ((P.take BUFSIZE).length = 0) := by
        rw [htake]
        omega
      have hsplit : P = P.take BUFSIZE ++ P.drop BUFSIZE := (List.take_append_drop _ _).symm
      by_cases hsh : P.length ≤ BUFSIZE
      · have hdropnil : P.drop BUFSIZE = [] := List.drop_eq_nil_of_le hsh
        have htkall : P.take BUFSIZE = P := List.take_of_length_le hsh
        by_cases hexact : P.length = BUFSIZE
        · -- exact read: the indicator stays clear, one more round reads nothing
          have hdec : decide (P.length < BUFSIZE) = false := by simp [hexact]
          rw [encode_loop]
          simp only [hblk, fread, htkall, hdropnil, hdec, Bool.false_or, mdWrite_hd, hhd]
          rw [if_neg (by simp), if_neg (by simp), if_neg (by omega)]
          rw [mdWrite_set_hd]
          rw [ih [] _ (gcry_cipher_encrypt h P).1 _
            (by simp [mdWrite_blk, hblk]) (by simp [mdWrite_hd])
            (by simp only [List.length_nil]; omega)]
          simp [mdWrite_nil, gcry_cipher_encrypt]
          rfl
        · -- short read: the indicator is set and the loop stops on re-entry
          have hshort : P.length < BUFSIZE := by omega
          have hdec : decide (P.length < BUFSIZE) = true := by simp [hshort]
          rw [encode_loop]
          simp only [hblk, fread, htkall, hdropnil, hdec, Bool.false_or, mdWrite_hd, hhd]
          rw [if_neg (by simp), if_neg (by simp), if_neg (by omega)]
          rw [mdWrite_set_hd]
          obtain ⟨k2, rfl⟩ : ∃ k2, fuel = k2 + 1 := by
            refine ⟨fuel - 1, by omega⟩
          rw [encode_loop]
          simp
      · -- more than one buffer: recurse on the dropped tail
        have hgt : BUFSIZE < P.length := by omega
        have hdec : decide ((P.take BUFSIZE).length < BUFSIZE) = false := by
          simp [htake]
          omega
        have hdlen : (P.drop BUFSIZE).length = P.length - BUFSIZE := List.length_drop _ _
        rw [encode_loop]
        simp only [hblk, fread, hdec, Bool.false_or, mdWrite_hd, hhd]
        rw [if_neg (by simp), if_neg (by simp), if_neg h0]
        rw [mdWrite_set_hd]
        rw [ih (P.drop BUFSIZE) _ (gcry_cipher_encrypt h (P.take BUFSIZE)).1 _
          (by simp [mdWrite_blk, hblk]) (by simp [mdWrite_hd])
          (by omega)]
        rw [mdWrite_append]
        conv_rhs => rw [hsplit]
        rw [gcry_enc_append]
        simp
        and_intros <;> rfl

theorem gcry_enc_syncEnabled (c : GcryCipher) (l : List Nat) :
    (gcry_cipher_encrypt c l).1.syncEnabled = c.syncEnabled := by
  induction l generalizing c with
  | nil => rfl
  | cons x xs ih =>
    rw [gcry_cipher_encrypt]
    rw [ih]
    unfold cfbEncByte
    cases c.pend <;> rfl

theorem gcry_dec_syncEnabled (c : GcryCipher) (l : List Nat) :
    (gcry_cipher_decrypt c l).1.syncEnabled = c.syncEnabled := by
  induction l generalizing c with
  | nil => rfl
  | cons x xs ih =>
    rw [gcry_cipher_decrypt]
    rw [ih]
    unfold cfbDecByte
    cases c.pend <;> rfl

theorem sync_of_disabled (c : GcryCipher) (h : c.syncEnabled = false) :
    gcry_cipher_sync c = c := by
  simp [gcry_cipher_sync, h]

theorem cipher_encode_file_mdc (cfx : cipher_filter) (P : List Nat)
    (m : GcryMd) (h : GcryCipher)
    (hblk : cfx.blkmode.on' = false) (hhd : cfx.hd = some h)
    (hmdc : cfx.mdc = some m) :
    (cipher_encode_file cfx ⟨P, false⟩).1 = .ok () ∧
    (cipher_encode_file cfx ⟨P, false⟩).2.2 =
      (gcry_cipher_encrypt h (P ++ mdcTrailer m.H (m.acc ++ P ++ [0xD3, 0x14]))).2 := by
  unfold cipher_encode_file
  dsimp only
  rw [encode_loop_definite (P.length + 2) P cfx h [] _ hblk hhd (le_refl _)]
  have hmd2 : (mdWrite cfx P).mdc = some (gcry_md_write m P) := by
    simp [mdWrite, hmdc]
  simp only [hmd2]
  unfold write_mdc_packet
  simp only [hmd2]
  rw [gcry_enc_append]
  simp [mdcTrailer, gcry_md_write, md_read]

theorem cipher_encode_file_plain (cfx : cipher_filter) (P : List Nat)
    (h : GcryCipher)
    (hblk : cfx.blkmode.on' = false) (hhd : cfx.hd = some h)
    (hmdc : cfx.mdc = none) :
    (cipher_encode_file cfx ⟨P, false⟩).1 = .ok () ∧
    (cipher_encode_file cfx ⟨P, false⟩).2.2 = (gcry_cipher_encrypt h P).2 := by
  unfold cipher_encode_file
  dsimp only
  rw [encode_loop_definite (P.length + 2) P cfx h [] _ hblk hhd (le_refl _)]
  have hmd2 : (mdWrite cfx P).mdc = none := by
    simp [mdWrite, hmdc]
  simp [hmd2]

/-- Full characterization of a definite-length encode with MDC active
(requested by the caller or forced by a non-8-byte block): the packet
record announces the integrity-protected type with `datalen + 22` (when
the length is nonzero), and the body is one continuous CFB encryption of
prefix ++ plaintext ++ MDC trailer. -/
theorem encodeBytes_mdc_spec (bs : Nat) (E Hh : List Nat → List Nat)
    (umdc : Bool) (rand P : List Nat) (h8 : 8 ≤ bs) (h16 : bs ≤ 16)
    (hforced : bs ≠ 8 ∨ umdc = true) :
    encodeBytes bs E Hh umdc false rand P =
      (.ok (),
       some ⟨true, false, (if P.length = 0 then 0 else P.length + 22), bs + 2⟩,
       (gcry_cipher_encrypt (openCipher bs E false)
         (pfxPlain bs rand ++ P ++
          mdcTrailer Hh (pfxPlain bs rand ++ P ++ [0xD3, 0x14]))).2) := by
  have humdc : (if bs ≠ 8 then true else umdc) = true := by
    rcases hforced with hb | hu
    · simp [hb]
    · simp [hu]
  unfold encodeBytes cipher_encode
  dsimp only
  have hblkoff : ({ encCfg bs E Hh umdc false with datalen := ((⟨P, false⟩ : CFile)).buf.length } :
      cipher_filter).blkmode.on' = false := rfl
  rw [if_neg (by simp [encCfg])]
  rw [write_header_definite bs E Hh umdc _ rand h8 h16]
  dsimp only
  rw [humdc]
  have hsync : gcry_cipher_sync
      (gcry_cipher_encrypt (openCipher bs E (!true)) (pfxPlain bs rand)).1 =
      (gcry_cipher_encrypt (openCipher bs E false) (pfxPlain bs rand)).1 := by
    apply sync_of_disabled
    rw [gcry_enc_syncEnabled]
    rfl
  rw [hsync]
  have hres := cipher_encode_file_mdc
    ({ encCfg bs E Hh umdc false with
        datalen := if True ∧ P.length ≠ 0 then P.length + 22 else P.length
        mdc := some ⟨Hh, pfxPlain bs rand⟩
        hd := some (gcry_cipher_encrypt (openCipher bs E false) (pfxPlain bs rand)).1 })
    P ⟨Hh, pfxPlain bs rand⟩
    (gcry_cipher_encrypt (openCipher bs E false) (pfxPlain bs rand)).1
    rfl rfl rfl
  simp only [eq_self_iff_true, true_and, if_true, Bool.not_true] at hres ⊢
  obtain ⟨h1res, h2res⟩ := hres
  rw [h1res, h2res]
  conv_rhs => rw [List.append_assoc (pfxPlain bs rand) P, gcry_enc_append]
  by_cases hP0 : P.length = 0 <;> simp [hP0]

/-- Full characterization of a definite-length encode without MDC (block
size 8 and the caller did not request integrity protection): the legacy
packet type, the plain data length, and the body is the encrypted prefix
followed by the body encryption after the CFB resynchronization. -/
theorem encodeBytes_plain_spec (E Hh : List Nat → List Nat) (rand P : List Nat) :
    encodeBytes 8 E Hh false false rand P =
      (.ok (), some ⟨false, false, P.length, 10⟩,
       (gcry_cipher_encrypt (openCipher 8 E true) (pfxPlain 8 rand)).2 ++
       (gcry_cipher_encrypt
         (gcry_cipher_sync (gcry_cipher_encrypt (openCipher 8 E true) (pfxPlain 8 rand)).1)
         P).2) := by
  unfold encodeBytes cipher_encode
  dsimp only
  rw [if_neg (by simp [encCfg])]
  rw [write_header_definite 8 E Hh false _ rand (by norm_num) (by norm_num)]
  dsimp only
  simp only [ne_eq, not_true_eq_false, if_false, false_and, Bool.not_false, ite_self]
  have hres := cipher_encode_file_plain
    ({ encCfg 8 E Hh false false with
        datalen := P.length
        mdc := none
        hd := some (gcry_cipher_sync
          (gcry_cipher_encrypt (openCipher 8 E true) (pfxPlain 8 rand)).1) })
    P
    (gcry_cipher_sync (gcry_cipher_encrypt (openCipher 8 E true) (pfxPlain 8 rand)).1)
    rfl rfl rfl
  obtain ⟨h1res, h2res⟩ := hres
  simp only [Bool.false_eq_true, false_and, if_false] at h1res h2res ⊢
  rw [h1res, h2res]

/-! ## Characterization of the decode path in definite-length mode -/

theorem fgetc_n_spec (n : Nat) (L : List Nat) (e : Bool) (hn : n ≤ L.length) :
    fgetc_n n ⟨L, e⟩ = (some (L.take n), ⟨L.drop n, e⟩) := by
  induction n generalizing L with
  | zero => simp [fgetc_n]
  | succ n ih =>
    cases L with
    | nil => simp at hn
    | cons b rest =>
      rw [fgetc_n]
      simp only [fgetc]
      rw [ih rest (by simpa using hn)]
      simp

theorem mdWrite_of_none (cfx : cipher_filter) (l : List Nat) (h : cfx.mdc = none) :
    mdWrite cfx l = cfx := by
  cases cfx with
  | mk dek d blk mdc hd mm sh =>
    simp only at h
    subst h
    simp [mdWrite]

theorem read_header_spec (bs : Nat) (E Hh : List Nat → List Nat) (mdcm : Bool)
    (C : List Nat) (e : Bool) (h8 : 8 ≤ bs) (h16 : bs ≤ 16)
    (hlen : bs + 2 ≤ C.length) :
    read_header (decCfg bs E Hh mdcm) ⟨C, e⟩ =
      (let d := gcry_cipher_decrypt (openCipher bs E (!mdcm)) (C.take (bs + 2))
       if d.2.getD (bs - 2) 0 ≠ d.2.getD bs 0 ∨
          d.2.getD (bs - 1) 0 ≠ d.2.getD (bs + 1) 0 then .error .chksum
       else .ok ({ decCfg bs E Hh mdcm with
                     mdc := if mdcm then some ⟨Hh, d.2⟩ else none
                     hd := some (gcry_cipher_sync d.1) },
                 ⟨C.drop (bs + 2), e⟩)) := by
  unfold read_header
  dsimp only [decCfg, openCipher]
  rw [if_neg (by omega)]
  rw [if_neg (by omega)]
  rw [fgetc_n_spec (bs + 2) C e hlen]
  dsimp only
  cases hm : mdcm with
  | false =>
    simp only [hm, Bool.false_eq_true, if_false]
    split_ifs with hck
    all_goals simp [mdWrite, gcry_md_write]
  | true =>
    simp only [hm, if_true]
    split_ifs with hck
    all_goals simp [mdWrite, gcry_md_write]

theorem mdWrite_mdc_none (cfx : cipher_filter) (l : List Nat) (h : cfx.mdc = none) :
    (mdWrite cfx l).mdc = none := by
  simp [mdWrite, h]

theorem decode_loop_plain (fuel : Nat) (C : List Nat) (cfx : cipher_filter)
    (h : GcryCipher) (out : List Nat)
    (hblk : cfx.blkmode.on' = false) (hhd : cfx.hd = some h)
    (hmdc : cfx.mdc = none) (hfuel : C.length + 2 ≤ fuel) :
    (decode_loop fuel cfx ⟨C, false⟩ out).1 = .ok () ∧
    (decode_loop fuel cfx ⟨C, false⟩ out).2.2.2 = out ++ (gcry_cipher_decrypt h C).2 := by
  induction fuel generalizing C cfx h out with
  | zero => omega
  | succ fuel ih =>
    have hB : BUFSIZE = 8192 := rfl
    by_cases hC : C = []
    · subst hC
      rw [decode_loop]
      simp [hblk, fread, gcry_cipher_decrypt]
    · have hlen : 0 < C.length := List.length_pos.mpr hC
      have htake : (C.take BUFSIZE).length = min BUFSIZE C.length := List.length_take _ _
      have hsplit : C = C.take BUFSIZE ++ C.drop BUFSIZE := (List.take_append_drop _ _).symm
      by_cases hsh : C.length < BUFSIZE
      · -- short read: indicator set, next round exits at once
        have htkall : C.take BUFSIZE = C := List.take_of_length_le (by omega)
        have hdrop : C.drop BUFSIZE = [] := List.drop_eq_nil_of_le (by omega)
        have hdec : decide (C.length < BUFSIZE) = true := by simp [hsh]
        obtain ⟨k2, rfl⟩ : ∃ k2, fuel = k2 + 1 := ⟨fuel - 1, by omega⟩
        rw [decode_loop]
        simp only [hblk, Bool.false_eq_true, if_false, fread, htkall, hdrop, hdec, hhd,
          Bool.false_or]
        rw [if_neg (show ¬(C.length = 0) from by omega)]
        simp only [hmdc, Option.isSome_none, Bool.false_eq_true, and_false, if_false]
        simp only [mdWrite_blk, hblk, Bool.false_eq_true, if_false]
        rw [decode_loop]
        simp
      · -- full buffer read: recurse (possibly on the empty tail)
        have hdec : decide ((C.take BUFSIZE).length < BUFSIZE) = false := by
          rw [htake]
          simp
          omega
        rw [decode_loop]
        simp only [hblk, Bool.false_eq_true, if_false, fread, hdec, hhd, Bool.or_false,
          Bool.false_or]
        rw [if_neg (show ¬((C.take BUFSIZE).length = 0) from by rw [htake]; omega)]
        simp only [hmdc, Option.isSome_none, Bool.false_eq_true, and_false, if_false]
        simp only [mdWrite_blk, hblk, Bool.false_eq_true, if_false]
        have hrec := ih (C.drop BUFSIZE)
          (mdWrite { cfx with hd := some (gcry_cipher_decrypt h (C.take BUFSIZE)).1 }
            (gcry_cipher_decrypt h (C.take BUFSIZE)).2)
          (gcry_cipher_decrypt h (C.take BUFSIZE)).1
          (out ++ (gcry_cipher_decrypt h (C.take BUFSIZE)).2)
          (by rw [mdWrite_blk]; exact hblk)
          (by rw [mdWrite_hd])
          (mdWrite_mdc_none _ _ hmdc)
          (by rw [List.length_drop]; omega)
        simp only [hmdc] at hrec
        refine ⟨hrec.1, ?_⟩
        rw [hrec.2]
        conv_rhs => rw [hsplit, gcry_dec_append]
        simp

theorem getD_append_left' (l1 l2 : List Nat) (n : Nat) (h : n < l1.length) :
    (l1 ++ l2).getD n 0 = l1.getD n 0 := by
  simp [List.getD_eq_getElem?_getD, List.getElem?_append_left h]

theorem getD_append_right' (l1 l2 : List Nat) (n : Nat) (h : l1.length ≤ n) :
    (l1 ++ l2).getD n 0 = l2.getD (n - l1.length) 0 := by
  simp [List.getD_eq_getElem?_getD, List.getElem?_append_right h]

theorem mdWrite_mdc_some (cfx : cipher_filter) (l : List Nat) (m : GcryMd)
    (h : cfx.mdc = some m) : (mdWrite cfx l).mdc = some (gcry_md_write m l) := by
  simp [mdWrite, h]

theorem decode_loop_mdc (fuel : Nat) (C : List Nat) (cfx : cipher_filter)
    (md : GcryMd) (h : GcryCipher) (out : List Nat)
    (hblk : cfx.blkmode.on' = false) (hhd : cfx.hd = some h)
    (hmdc : cfx.mdc = some md)
    (hmod : 22 ≤ C.length % BUFSIZE) (hfuel : C.length + 2 ≤ fuel)
    (htag1 : (gcry_cipher_decrypt h C).2.getD (C.length - 22) 0 = 0xD3)
    (htag2 : (gcry_cipher_decrypt h C).2.getD (C.length - 21) 0 = 0x14)
    (hdig : md_read ⟨md.H, md.acc ++ (gcry_cipher_decrypt h C).2.take (C.length - 20)⟩ =
            ((gcry_cipher_decrypt h C).2.drop (C.length - 20)).take 20) :
    (decode_loop fuel cfx ⟨C, false⟩ out).1 = .ok () ∧
    (decode_loop fuel cfx ⟨C, false⟩ out).2.2.2 =
      out ++ (gcry_cipher_decrypt h C).2.take (C.length - 22) := by
  induction fuel generalizing C cfx md h out with
  | zero => omega
  | succ fuel ih =>
    have hB : BUFSIZE = 8192 := rfl
    have h22 : 22 ≤ C.length := le_trans hmod (Nat.mod_le _ _)
    have hlen : 0 < C.length := by omega
    have hdlC : (gcry_cipher_decrypt h C).2.length = C.length := gcry_dec_length _ _
    by_cases hsh : C.length < BUFSIZE
    · -- the final, short read: verification runs here
      have hmodeq : C.length % BUFSIZE = C.length := Nat.mod_eq_of_lt hsh
      have htkall : C.take BUFSIZE = C := List.take_of_length_le (by omega)
      have hdrop : C.drop BUFSIZE = [] := List.drop_eq_nil_of_le (by omega)
      have hdec : decide (C.length < BUFSIZE) = true := by simp [hsh]
      obtain ⟨k2, rfl⟩ : ∃ k2, fuel = k2 + 1 := ⟨fuel - 1, by omega⟩
      rw [decode_loop]
      simp only [hblk, Bool.false_eq_true, if_false, fread, htkall, hdrop, hdec, hhd,
        Bool.false_or]
      rw [if_neg (show ¬(C.length = 0) from by omega)]
      simp only [hmdc, Option.isSome_some, and_true, if_true, true_and]
      unfold finalize_mdc
      rw [if_neg (show ¬((gcry_cipher_decrypt h C).2.length < 22) from by rw [hdlC]; omega)]
      rw [hdlC]
      rw [show C.length - 20 - 2 = C.length - 22 from by omega,
          show C.length - 20 - 1 = C.length - 21 from by omega]
      rw [if_pos ⟨htag1, htag2⟩]
      have hdig2 : md_read (gcry_md_write md ((gcry_cipher_decrypt h C).2.take (C.length - 20))) =
          ((gcry_cipher_decrypt h C).2.drop (C.length - 20)).take 20 := by
        simpa [gcry_md_write] using hdig
      rw [if_pos hdig2]
      simp only [mdWrite_blk, hblk, Bool.false_eq_true, if_false]
      rw [decode_loop]
      simp [hdlC]
    · -- a full buffer that is not the last read: hash it and recurse
      have hgt : BUFSIZE + 22 ≤ C.length := by
        have hm : 22 ≤ C.length % 8192 := hB ▸ hmod
        have hs : ¬ C.length < 8192 := hB ▸ hsh
        rw [hB]
        omega
      have htake : (C.take BUFSIZE).length = BUFSIZE := by
        rw [List.length_take]
        omega
      have hdec : decide ((C.take BUFSIZE).length < BUFSIZE) = false := by
        rw [htake]
        simp
      have hdlen : (C.drop BUFSIZE).length = C.length - BUFSIZE := List.length_drop _ _
      have hcd : (gcry_cipher_decrypt h C).2 =
          (gcry_cipher_decrypt h (C.take BUFSIZE)).2 ++
          (gcry_cipher_decrypt (gcry_cipher_decrypt h (C.take BUFSIZE)).1 (C.drop BUFSIZE)).2 := by
        conv_lhs => rw [← List.take_append_drop BUFSIZE C]
        rw [gcry_dec_append]
      have hptlen : (gcry_cipher_decrypt h (C.take BUFSIZE)).2.length = BUFSIZE := by
        rw [gcry_dec_length, htake]
      have htag1' : (gcry_cipher_decrypt (gcry_cipher_decrypt h (C.take BUFSIZE)).1
          (C.drop BUFSIZE)).2.getD ((C.drop BUFSIZE).length - 22) 0 = 0xD3 := by
        have hx := htag1
        rw [hcd, getD_append_right' _ _ _ (by rw [hptlen]; omega), hptlen] at hx
        rw [hdlen, show C.length - BUFSIZE - 22 = C.length - 22 - BUFSIZE from by omega]
        exact hx
      have htag2' : (gcry_cipher_decrypt (gcry_cipher_decrypt h (C.take BUFSIZE)).1
          (C.drop BUFSIZE)).2.getD ((C.drop BUFSIZE).length - 21) 0 = 0x14 := by
        have hx := htag2
        rw [hcd, getD_append_right' _ _ _ (by rw [hptlen]; omega), hptlen] at hx
        rw [hdlen, show C.length - BUFSIZE - 21 = C.length - 21 - BUFSIZE from by omega]
        exact hx
      have htk20 : (gcry_cipher_decrypt h (C.take BUFSIZE)).2.take (C.length - 20) =
          (gcry_cipher_decrypt h (C.take BUFSIZE)).2 :=
        List.take_of_length_le (by rw [hptlen]; omega)
      have hdp20 : (gcry_cipher_decrypt h (C.take BUFSIZE)).2.drop (C.length - 20) = [] :=
        List.drop_eq_nil_of_le (by rw [hptlen]; omega)
      have hdig' : md_read ⟨(gcry_md_write md (gcry_cipher_decrypt h (C.take BUFSIZE)).2).H,
          (gcry_md_write md (gcry_cipher_decrypt h (C.take BUFSIZE)).2).acc ++
          (gcry_cipher_decrypt (gcry_cipher_decrypt h (C.take BUFSIZE)).1
            (C.drop BUFSIZE)).2.take ((C.drop BUFSIZE).length - 20)⟩ =
          ((gcry_cipher_decrypt (gcry_cipher_decrypt h (C.take BUFSIZE)).1
            (C.drop BUFSIZE)).2.drop ((C.drop BUFSIZE).length - 20)).take 20 := by
        have hx := hdig
        rw [hcd, List.take_append_eq_append_take, List.drop_append_eq_append_drop,
            htk20, hdp20, hptlen, List.nil_append] at hx
        rw [hdlen, show C.length - BUFSIZE - 20 = C.length - 20 - BUFSIZE from by omega]
        simpa [gcry_md_write, List.append_assoc] using hx
      rw [decode_loop]
      simp only [hblk, Bool.false_eq_true, if_false, fread, hdec, hhd, Bool.or_false,
        Bool.false_or]
      rw [if_neg (show ¬((C.take BUFSIZE).length = 0) from by rw [htake]; omega)]
      simp only [hmdc, Option.isSome_some, and_false, Bool.false_eq_true, false_and, if_false]
      simp only [mdWrite_blk, hblk, Bool.false_eq_true, if_false]
      have hrec := ih (C.drop BUFSIZE)
        (mdWrite { cfx with hd := some (gcry_cipher_decrypt h (C.take BUFSIZE)).1 }
          (gcry_cipher_decrypt h (C.take BUFSIZE)).2)
        (gcry_md_write md (gcry_cipher_decrypt h (C.take BUFSIZE)).2)
        (gcry_cipher_decrypt h (C.take BUFSIZE)).1
        (out ++ (gcry_cipher_decrypt h (C.take BUFSIZE)).2)
        (by rw [mdWrite_blk]; exact hblk)
        (by rw [mdWrite_hd])
        (mdWrite_mdc_some _ _ _ hmdc)
        (by rw [hdlen, hB]
            have hm : 22 ≤ C.length % 8192 := hB ▸ hmod
            have hg : 8192 + 22 ≤ C.length := hB ▸ hgt
            omega)
        (by rw [hdlen]; omega)
        htag1' htag2' hdig'
      simp only [hmdc] at hrec
      refine ⟨hrec.1, ?_⟩
      rw [hrec.2, hcd, List.take_append_eq_append_take]
      rw [List.take_of_length_le (show (gcry_cipher_decrypt h (C.take BUFSIZE)).2.length ≤
            C.length - 22 from by rw [hptlen]; omega)]
      rw [hptlen, hdlen,
          show C.length - 22 - BUFSIZE = C.length - BUFSIZE - 22 from by omega,
          List.append_assoc]

theorem decode_loop_mdc_skip (fuel : Nat) (C : List Nat) (cfx : cipher_filter)
    (md : GcryMd) (h : GcryCipher) (out : List Nat)
    (hblk : cfx.blkmode.on' = false) (hhd : cfx.hd = some h)
    (hmdc : cfx.mdc = some md)
    (hmod : C.length % BUFSIZE = 0) (hne : C ≠ [])
    (hfuel : C.length + 2 ≤ fuel) :
    (decode_loop fuel cfx ⟨C, false⟩ out).1 = .ok () ∧
    (decode_loop fuel cfx ⟨C, false⟩ out).2.2.2 = out ++ (gcry_cipher_decrypt h C).2 := by
  induction fuel generalizing C cfx md h out with
  | zero => omega
  | succ fuel ih =>
    have hB : BUFSIZE = 8192 := rfl
    have hlen : 0 < C.length := List.length_pos.mpr hne
    have hge : BUFSIZE ≤ C.length := by
      have hm : C.length % 8192 = 0 := hB ▸ hmod
      rw [hB]
      omega
    have htake : (C.take BUFSIZE).length = BUFSIZE := by
      rw [List.length_take]
      omega
    have hdec : decide ((C.take BUFSIZE).length < BUFSIZE) = false := by
      rw [htake]
      simp
    have hdlen : (C.drop BUFSIZE).length = C.length - BUFSIZE := List.length_drop _ _
    have hcd : (gcry_cipher_decrypt h C).2 =
        (gcry_cipher_decrypt h (C.take BUFSIZE)).2 ++
        (gcry_cipher_decrypt (gcry_cipher_decrypt h (C.take BUFSIZE)).1 (C.drop BUFSIZE)).2 := by
      conv_lhs => rw [← List.take_append_drop BUFSIZE C]
      rw [gcry_dec_append]
    rw [decode_loop]
    simp only [hblk, Bool.false_eq_true, if_false, fread, hdec, hhd, Bool.or_false,
      Bool.false_or]
    rw [if_neg (show ¬((C.take BUFSIZE).length = 0) from by rw [htake]; omega)]
    simp only [hmdc, Option.isSome_some, and_false, Bool.false_eq_true, false_and, if_false]
    simp only [mdWrite_blk, hblk, Bool.false_eq_true, if_false]
    by_cases hone : C.length = BUFSIZE
    · -- exactly one buffer: the next round reads nothing and leaves
      have hdrop : C.drop BUFSIZE = [] := List.drop_eq_nil_of_le (by omega)
      obtain ⟨k2, rfl⟩ : ∃ k2, fuel = k2 + 1 := ⟨fuel - 1, by omega⟩
      rw [hdrop]
      rw [decode_loop]
      rw [hcd, hdrop]
      simp [fread, gcry_cipher_decrypt]
    · have hrec := ih (C.drop BUFSIZE)
        (mdWrite { cfx with hd := some (gcry_cipher_decrypt h (C.take BUFSIZE)).1 }
          (gcry_cipher_decrypt h (C.take BUFSIZE)).2)
        (gcry_md_write md (gcry_cipher_decrypt h (C.take BUFSIZE)).2)
        (gcry_cipher_decrypt h (C.take BUFSIZE)).1
        (out ++ (gcry_cipher_decrypt h (C.take BUFSIZE)).2)
        (by rw [mdWrite_blk]; exact hblk)
        (by rw [mdWrite_hd])
        (mdWrite_mdc_some _ _ _ hmdc)
        (by rw [hdlen, hB]
            have hm : C.length % 8192 = 0 := hB ▸ hmod
            have hg : 8192 ≤ C.length := hB ▸ hge
            omega)
        (by intro hcon
            have := congrArg List.length hcon
            rw [hdlen] at this
            simp at this
            have hg : 8192 ≤ C.length := hB ▸ hge
            rw [hB] at this
            omega)
        (by rw [hdlen]; omega)
      simp only [hmdc] at hrec
      refine ⟨hrec.1, ?_⟩
      rw [hrec.2, hcd, List.append_assoc]

theorem pfxPlain_length (bs : Nat) (rand : List Nat) (h : rand.length = bs) :
    (pfxPlain bs rand).length = bs + 2 := by
  simp [pfxPlain, List.take_of_length_le (le_of_eq h), h]

theorem md_read_length (m : GcryMd) : (md_read m).length = 20 := by
  simp [md_read]

theorem pfxPlain_selfcheck (bs : Nat) (rand : List Nat) (hbs : 2 ≤ bs)
    (h : rand.length = bs) :
    (pfxPlain bs rand).getD (bs - 2) 0 = (pfxPlain bs rand).getD bs 0 ∧
    (pfxPlain bs rand).getD (bs - 1) 0 = (pfxPlain bs rand).getD (bs + 1) 0 := by
  unfold pfxPlain
  rw [List.take_of_length_le (le_of_eq h)]
  constructor
  · rw [getD_append_left' _ _ _ (by omega), getD_append_right' _ _ _ (by omega), h]
    simp
  · rw [getD_append_left' _ _ _ (by omega), getD_append_right' _ _ _ (by omega), h]
    rw [show bs + 1 - bs = 1 from by omega]
    simp

/-- Decoding a well-formed integrity-protected definite-length body (as
produced by the MDC encode path) releases exactly the plaintext and
succeeds, provided the byte count of the final short read covers the
22-byte trailer. -/
theorem decodeBytes_of_enc_mdc (bs : Nat) (E Hh : List Nat → List Nat)
    (rand P : List Nat) (h8 : 8 ≤ bs) (h16 : bs ≤ 16) (hrand : rand.length = bs)
    (hmod : 22 ≤ (P.length + 22) % BUFSIZE) :
    decodeBytes bs E Hh true
      ((gcry_cipher_encrypt (openCipher bs E false)
        (pfxPlain bs rand ++ P ++
         mdcTrailer Hh (pfxPlain bs rand ++ P ++ [0xD3, 0x14]))).2) = (.ok (), P) := by
  have hpfxlen : (pfxPlain bs rand).length = bs + 2 := pfxPlain_length bs rand hrand
  have htrlen : (mdcTrailer Hh (pfxPlain bs rand ++ P ++ [0xD3, 0x14])).length = 22 :=
    mdcTrailer_length _ _
  have hsplit : pfxPlain bs rand ++ P ++
      mdcTrailer Hh (pfxPlain bs rand ++ P ++ [0xD3, 0x14]) =
      pfxPlain bs rand ++ (P ++ mdcTrailer Hh (pfxPlain bs rand ++ P ++ [0xD3, 0x14])) := by
    rw [List.append_assoc]
  rw [hsplit, gcry_enc_append]
  have henclen1 : (gcry_cipher_encrypt (openCipher bs E false) (pfxPlain bs rand)).2.length =
      bs + 2 := by rw [gcry_enc_length, hpfxlen]
  have henclen2 : (gcry_cipher_encrypt
      (gcry_cipher_encrypt (openCipher bs E false) (pfxPlain bs rand)).1
      (P ++ mdcTrailer Hh (pfxPlain bs rand ++ P ++ [0xD3, 0x14]))).2.length =
      P.length + 22 := by
    rw [gcry_enc_length, List.length_append, htrlen]
  unfold decodeBytes cipher_decode
  rw [read_header_spec bs E Hh true _ false h8 h16
    (by rw [List.length_append, henclen1, henclen2]; omega)]
  dsimp only
  rw [List.take_left' henclen1, List.drop_left' henclen1]
  have hdecenc := gcry_dec_enc (openCipher bs E false) (pfxPlain bs rand)
  rw [show (openCipher bs E (!true)) = openCipher bs E false from rfl, hdecenc]
  dsimp only
  rw [if_neg (by
    have hsc := pfxPlain_selfcheck bs rand (by omega) hrand
    push_neg
    exact ⟨hsc.1, hsc.2⟩)]
  dsimp only
  simp only [eq_self_iff_true, if_true]
  have hsync : gcry_cipher_sync
      (gcry_cipher_encrypt (openCipher bs E false) (pfxPlain bs rand)).1 =
      (gcry_cipher_encrypt (openCipher bs E false) (pfxPlain bs rand)).1 :=
    sync_of_disabled _ (by rw [gcry_enc_syncEnabled]; rfl)
  rw [hsync]
  unfold cipher_decode_file
  have hdec2 := gcry_dec_enc
    (gcry_cipher_encrypt (openCipher bs E false) (pfxPlain bs rand)).1
    (P ++ mdcTrailer Hh (pfxPlain bs rand ++ P ++ [0xD3, 0x14]))
  have htr2 : (mdcTrailer Hh (pfxPlain bs rand ++ P ++ [0xD3, 0x14])).take 2 =
      [0xD3, 0x14] := by
    simp [mdcTrailer]
  have htrd2 : (mdcTrailer Hh (pfxPlain bs rand ++ P ++ [0xD3, 0x14])).drop 2 =
      md_read ⟨Hh, pfxPlain bs rand ++ P ++ [0xD3, 0x14]⟩ := by
    simp [mdcTrailer]
  have hdecsnd : (gcry_cipher_decrypt
      (gcry_cipher_encrypt (openCipher bs E false) (pfxPlain bs rand)).1
      (gcry_cipher_encrypt
        (gcry_cipher_encrypt (openCipher bs E false) (pfxPlain bs rand)).1
        (P ++ mdcTrailer Hh (pfxPlain bs rand ++ P ++ [0xD3, 0x14]))).2).2 =
      P ++ mdcTrailer Hh (pfxPlain bs rand ++ P ++ [0xD3, 0x14]) := by
    rw [hdec2]
  have htag1x : (gcry_cipher_decrypt
      (gcry_cipher_encrypt (openCipher bs E false) (pfxPlain bs rand)).1
      (gcry_cipher_encrypt
        (gcry_cipher_encrypt (openCipher bs E false) (pfxPlain bs rand)).1
        (P ++ mdcTrailer Hh (pfxPlain bs rand ++ P ++ [0xD3, 0x14]))).2).2.getD
      ((gcry_cipher_encrypt
        (gcry_cipher_encrypt (openCipher bs E false) (pfxPlain bs rand)).1
        (P ++ mdcTrailer Hh (pfxPlain bs rand ++ P ++ [0xD3, 0x14]))).2.length - 22) 0
      = 0xD3 := by
    rw [hdecsnd, henclen2, show P.length + 22 - 22 = P.length from by omega]
    rw [getD_append_right' _ _ _ (le_refl _), Nat.sub_self]
    simp [mdcTrailer]
  have htag2x : (gcry_cipher_decrypt
      (gcry_cipher_encrypt (openCipher bs E false) (pfxPlain bs rand)).1
      (gcry_cipher_encrypt
        (gcry_cipher_encrypt (openCipher bs E false) (pfxPlain bs rand)).1
        (P ++ mdcTrailer Hh (pfxPlain bs rand ++ P ++ [0xD3, 0x14]))).2).2.getD
      ((gcry_cipher_encrypt
        (gcry_cipher_encrypt (openCipher bs E false) (pfxPlain bs rand)).1
        (P ++ mdcTrailer Hh (pfxPlain bs rand ++ P ++ [0xD3, 0x14]))).2.length - 21) 0
      = 0x14 := by
    rw [hdecsnd, henclen2, show P.length + 22 - 21 = P.length + 1 from by omega]
    rw [getD_append_right' _ _ _ (by omega), show P.length + 1 - P.length = 1 from by omega]
    simp [mdcTrailer]
  have hdigx : md_read ⟨(⟨Hh, pfxPlain bs rand⟩ : GcryMd).H,
      (⟨Hh, pfxPlain bs rand⟩ : GcryMd).acc ++
      (gcry_cipher_decrypt
        (gcry_cipher_encrypt (openCipher bs E false) (pfxPlain bs rand)).1
        (gcry_cipher_encrypt
          (gcry_cipher_encrypt (openCipher bs E false) (pfxPlain bs rand)).1
          (P ++ mdcTrailer Hh (pfxPlain bs rand ++ P ++ [0xD3, 0x14]))).2).2.take
        ((gcry_cipher_encrypt
          (gcry_cipher_encrypt (openCipher bs E false) (pfxPlain bs rand)).1
          (P ++ mdcTrailer Hh (pfxPlain bs rand ++ P ++ [0xD3, 0x14]))).2.length - 20)⟩ =
      ((gcry_cipher_decrypt
        (gcry_cipher_encrypt (openCipher bs E false) (pfxPlain bs rand)).1
        (gcry_cipher_encrypt
          (gcry_cipher_encrypt (openCipher bs E false) (pfxPlain bs rand)).1
          (P ++ mdcTrailer Hh (pfxPlain bs rand ++ P ++ [0xD3, 0x14]))).2).2.drop
        ((gcry_cipher_encrypt
          (gcry_cipher_encrypt (openCipher bs E false) (pfxPlain bs rand)).1
          (P ++ mdcTrailer Hh (pfxPlain bs rand ++ P ++ [0xD3, 0x14]))).2.length - 20)).take 20
      := by
    dsimp only
    rw [hdecsnd, henclen2, show P.length + 22 - 20 = P.length + 2 from by omega]
    rw [List.take_append_eq_append_take, List.drop_append_eq_append_drop]
    rw [List.take_of_length_le (by omega), List.drop_eq_nil_of_le (by omega)]
    rw [show P.length + 2 - P.length = 2 from by omega]
    rw [htr2, htrd2, List.nil_append]
    rw [List.take_of_length_le (by rw [md_read_length])]
    rw [← List.append_assoc]
  have hdl := decode_loop_mdc
    ((gcry_cipher_encrypt
        (gcry_cipher_encrypt (openCipher bs E false) (pfxPlain bs rand)).1
        (P ++ mdcTrailer Hh (pfxPlain bs rand ++ P ++ [0xD3, 0x14]))).2.length + 2)
    ((gcry_cipher_encrypt
        (gcry_cipher_encrypt (openCipher bs E false) (pfxPlain bs rand)).1
        (P ++ mdcTrailer Hh (pfxPlain bs rand ++ P ++ [0xD3, 0x14]))).2)
    ({ decCfg bs E Hh true with
        mdc := some ⟨Hh, pfxPlain bs rand⟩
        hd := some (gcry_cipher_encrypt (openCipher bs E false) (pfxPlain bs rand)).1 })
    ⟨Hh, pfxPlain bs rand⟩
    (gcry_cipher_encrypt (openCipher bs E false) (pfxPlain bs rand)).1
    []
    rfl rfl rfl
    (by rw [henclen2]; exact hmod)
    (by omega)
    htag1x htag2x hdigx
  simp only [Prod.mk.injEq]
  constructor
  · exact hdl.1
  · refine hdl.2.trans ?_
    rw [hdecsnd, henclen2, show P.length + 22 - 22 = P.length from by omega]
    rw [List.take_left]
    simp

/-- Decoding a well-formed legacy (no MDC) definite-length body releases
exactly the plaintext: both sides resynchronize after the prefix. -/
theorem decodeBytes_of_enc_plain (E Hh : List Nat → List Nat) (rand P : List Nat)
    (hrand : rand.length = 8) :
    decodeBytes 8 E Hh false
      ((gcry_cipher_encrypt (openCipher 8 E true) (pfxPlain 8 rand)).2 ++
       (gcry_cipher_encrypt
         (gcry_cipher_sync (gcry_cipher_encrypt (openCipher 8 E true) (pfxPlain 8 rand)).1)
         P).2) = (.ok (), P) := by
  have hpfxlen : (pfxPlain 8 rand).length = 10 := pfxPlain_length 8 rand hrand
  have henclen1 : (gcry_cipher_encrypt (openCipher 8 E true) (pfxPlain 8 rand)).2.length =
      10 := by rw [gcry_enc_length, hpfxlen]
  unfold decodeBytes cipher_decode
  rw [read_header_spec 8 E Hh false _ false (by norm_num) (by norm_num)
    (by rw [List.length_append, henclen1]; omega)]
  dsimp only
  rw [show (8 : Nat) + 2 = 10 from rfl]
  rw [List.take_left' henclen1, List.drop_left' henclen1]
  have hdecenc := gcry_dec_enc (openCipher 8 E true) (pfxPlain 8 rand)
  rw [show (openCipher 8 E (!false)) = openCipher 8 E true from rfl, hdecenc]
  dsimp only
  rw [if_neg (by
    have hsc := pfxPlain_selfcheck 8 rand (by omega) hrand
    push_neg
    exact ⟨hsc.1, hsc.2⟩)]
  dsimp only
  simp only [Bool.false_eq_true, if_false]
  unfold cipher_decode_file
  have hdl := decode_loop_plain
    ((gcry_cipher_encrypt
        (gcry_cipher_sync (gcry_cipher_encrypt (openCipher 8 E true) (pfxPlain 8 rand)).1)
        P).2.length + 2)
    ((gcry_cipher_encrypt
        (gcry_cipher_sync (gcry_cipher_encrypt (openCipher 8 E true) (pfxPlain 8 rand)).1)
        P).2)
    ({ decCfg 8 E Hh false with
        mdc := none
        hd := some (gcry_cipher_sync
          (gcry_cipher_encrypt (openCipher 8 E true) (pfxPlain 8 rand)).1) })
    (gcry_cipher_sync (gcry_cipher_encrypt (openCipher 8 E true) (pfxPlain 8 rand)).1)
    []
    rfl rfl rfl (by omega)
  simp only [Prod.mk.injEq]
  constructor
  · exact hdl.1
  · refine hdl.2.trans ?_
    rw [gcry_dec_enc]
    simp

/-- The verification-skip hole: when the byte count remaining after the
prefix is an exact multiple of `BUFSIZE`, no read ever raises the
end-of-file indicator together with data in hand, so the trailer is never
diverted: decode succeeds and releases plaintext plus the 22 trailer
bytes. -/
theorem decodeBytes_of_enc_mdc_skip (bs : Nat) (E Hh : List Nat → List Nat)
    (rand P : List Nat) (h8 : 8 ≤ bs) (h16 : bs ≤ 16) (hrand : rand.length = bs)
    (hmod : (P.length + 22) % BUFSIZE = 0) :
    decodeBytes bs E Hh true
      ((gcry_cipher_encrypt (openCipher bs E false)
        (pfxPlain bs rand ++ P ++
         mdcTrailer Hh (pfxPlain bs rand ++ P ++ [0xD3, 0x14]))).2) =
      (.ok (), P ++ mdcTrailer Hh (pfxPlain bs rand ++ P ++ [0xD3, 0x14])) := by
  have hpfxlen : (pfxPlain bs rand).length = bs + 2 := pfxPlain_length bs rand hrand
  have htrlen : (mdcTrailer Hh (pfxPlain bs rand ++ P ++ [0xD3, 0x14])).length = 22 :=
    mdcTrailer_length _ _
  have hsplit : pfxPlain bs rand ++ P ++
      mdcTrailer Hh (pfxPlain bs rand ++ P ++ [0xD3, 0x14]) =
      pfxPlain bs rand ++ (P ++ mdcTrailer Hh (pfxPlain bs rand ++ P ++ [0xD3, 0x14])) := by
    rw [List.append_assoc]
  rw [hsplit, gcry_enc_append]
  have henclen1 : (gcry_cipher_encrypt (openCipher bs E false) (pfxPlain bs rand)).2.length =
      bs + 2 := by rw [gcry_enc_length, hpfxlen]
  have henclen2 : (gcry_cipher_encrypt
      (gcry_cipher_encrypt (openCipher bs E false) (pfxPlain bs rand)).1
      (P ++ mdcTrailer Hh (pfxPlain bs rand ++ P ++ [0xD3, 0x14]))).2.length =
      P.length + 22 := by
    rw [gcry_enc_length, List.length_append, htrlen]
  unfold decodeBytes cipher_decode
  rw [read_header_spec bs E Hh true _ false h8 h16
    (by rw [List.length_append, henclen1, henclen2]; omega)]
  dsimp only
  rw [List.take_left' henclen1, List.drop_left' henclen1]
  have hdecenc := gcry_dec_enc (openCipher bs E false) (pfxPlain bs rand)
  rw [show (openCipher bs E (!true)) = openCipher bs E false from rfl, hdecenc]
  dsimp only
  rw [if_neg (by
    have hsc := pfxPlain_selfcheck bs rand (by omega) hrand
    push_neg
    exact ⟨hsc.1, hsc.2⟩)]
  dsimp only
  simp only [eq_self_iff_true, if_true]
  have hsync : gcry_cipher_sync
      (gcry_cipher_encrypt (openCipher bs E false) (pfxPlain bs rand)).1 =
      (gcry_cipher_encrypt (openCipher bs E false) (pfxPlain bs rand)).1 :=
    sync_of_disabled _ (by rw [gcry_enc_syncEnabled]; rfl)
  rw [hsync]
  unfold cipher_decode_file
  have hdl := decode_loop_mdc_skip
    ((gcry_cipher_encrypt
        (gcry_cipher_encrypt (openCipher bs E false) (pfxPlain bs rand)).1
        (P ++ mdcTrailer Hh (pfxPlain bs rand ++ P ++ [0xD3, 0x14]))).2.length + 2)
    ((gcry_cipher_encrypt
        (gcry_cipher_encrypt (openCipher bs E false) (pfxPlain bs rand)).1
        (P ++ mdcTrailer Hh (pfxPlain bs rand ++ P ++ [0xD3, 0x14]))).2)
    ({ decCfg bs E Hh true with
        mdc := some ⟨Hh, pfxPlain bs rand⟩
        hd := some (gcry_cipher_encrypt (openCipher bs E false) (pfxPlain bs rand)).1 })
    ⟨Hh, pfxPlain bs rand⟩
    (gcry_cipher_encrypt (openCipher bs E false) (pfxPlain bs rand)).1
    []
    rfl rfl rfl
    (by rw [henclen2]; exact hmod)
    (by intro hcon
        have := congrArg List.length hcon
        rw [henclen2] at this
        simp at this)
    (by omega)
  simp only [Prod.mk.injEq]
  constructor
  · exact hdl.1
  · refine hdl.2.trans ?_
    rw [gcry_dec_enc]
    simp

/-- Decidable equality of results, used to evaluate the model on concrete
inputs inside proofs. -/
instance : DecidableEq (Except Cerr Unit) := fun a b =>
  match a, b with
  | .ok (), .ok () => isTrue rfl
  | .ok (), .error _ => isFalse (fun hc => by cases hc)
  | .error _, .ok () => isFalse (fun hc => by cases hc)
  | .error e, .error f =>
    if h : e = f then isTrue (by rw [h]) else isFalse (fun hc => h (by cases hc; rfl))

/-! ## The claims -/

/-- C10: the claim that `finalize_mdc` is only ever invoked with a final
read of at least 22 bytes, keeping all its accesses in bounds, is false:
on an integrity-protected stream whose body remaining after the prefix is
shorter than 22 bytes (here: a 20-byte stream, 10 bytes of valid prefix
for an 8-byte block and 10 body bytes), `cipher_decode_file` reaches
`finalize_mdc` with `nread = 10` and the C code reads `buf [nread - 22]`,
12 bytes before the buffer: the model returns the out-of-bounds marker. -/
theorem C10_short_final_read_oob :
    decodeBytes 8 (zeroE 8) zeroH true (List.replicate 20 0) = (.error .oob, []) := by
  decide

/-- C2 (counterexample): "any mismatch causes decode to fail with
IntegrityError" is false: when the two trailer tag bytes are not
`0xD3 0x14` the code returns `CDK_Inv_Packet` (the malformed-packet
error), not `CDK_Bad_MDC`.  Concretely: an 8-byte-block MDC stream of 32
zero bytes (valid prefix, then 22 zero trailer bytes whose tag check
fails) decodes to `inv_packet`. -/
theorem C2_counterexample :
    decodeBytes 8 (zeroE 8) zeroH true (List.replicate 32 0) = (.error .inv_packet, []) := by
  decide

/-- C2 (amended): the trailer verification `finalize_mdc`, invoked on the
decrypted bytes `buf` of the final read, succeeds exactly when the two
bytes at `nread - 22` are the fixed tag `0xD3 0x14` and the 20 trailing
bytes equal the digest of everything hashed so far plus the first
`nread - 20` bytes (so the 2-byte tag is hashed last); a tag mismatch is
`inv_packet` (malformed packet), and a digest mismatch is `bad_mdc`
(integrity error). -/
theorem C2_finalize_mdc_characterization (Hh : List Nat → List Nat)
    (acc buf : List Nat) (h22 : 22 ≤ buf.length) :
    (finalize_mdc ⟨Hh, acc⟩ buf buf.length = .ok () ↔
      (buf.getD (buf.length - 22) 0 = 0xD3 ∧ buf.getD (buf.length - 21) 0 = 0x14 ∧
       md_read ⟨Hh, acc ++ buf.take (buf.length - 20)⟩ =
         (buf.drop (buf.length - 20)).take 20)) ∧
    (¬ (buf.getD (buf.length - 22) 0 = 0xD3 ∧ buf.getD (buf.length - 21) 0 = 0x14) →
      finalize_mdc ⟨Hh, acc⟩ buf buf.length = .error .inv_packet) ∧
    ((buf.getD (buf.length - 22) 0 = 0xD3 ∧ buf.getD (buf.length - 21) 0 = 0x14) →
      md_read ⟨Hh, acc ++ buf.take (buf.length - 20)⟩ ≠
        (buf.drop (buf.length - 20)).take 20 →
      finalize_mdc ⟨Hh, acc⟩ buf buf.length = .error .bad_mdc) := by
  unfold finalize_mdc
  rw [if_neg (by omega)]
  rw [show buf.length - 20 - 2 = buf.length - 22 from by omega,
      show buf.length - 20 - 1 = buf.length - 21 from by omega]
  simp only [gcry_md_write]
  split_ifs with htag hdig
  · simp_all
  · simp_all
  · simp_all

/-- Witness for the C2 characterization at a concrete final read. -/
theorem C2_finalize_mdc_characterization_witness :
    22 ≤ (0xD3 :: 0x14 :: List.replicate 20 0 : List Nat).length ∧
    ((finalize_mdc ⟨zeroH, []⟩ (0xD3 :: 0x14 :: List.replicate 20 0)
        (0xD3 :: 0x14 :: List.replicate 20 0 : List Nat).length = .ok () ↔
      ((0xD3 :: 0x14 :: List.replicate 20 0 : List Nat).getD
          ((0xD3 :: 0x14 :: List.replicate 20 0 : List Nat).length - 22) 0 = 0xD3 ∧
       (0xD3 :: 0x14 :: List.replicate 20 0 : List Nat).getD
          ((0xD3 :: 0x14 :: List.replicate 20 0 : List Nat).length - 21) 0 = 0x14 ∧
       md_read ⟨zeroH, [] ++ (0xD3 :: 0x14 :: List.replicate 20 0 : List Nat).take
          ((0xD3 :: 0x14 :: List.replicate 20 0 : List Nat).length - 20)⟩ =
         ((0xD3 :: 0x14 :: List.replicate 20 0 : List Nat).drop
          ((0xD3 :: 0x14 :: List.replicate 20 0 : List Nat).length - 20)).take 20)) ∧
    (¬ ((0xD3 :: 0x14 :: List.replicate 20 0 : List Nat).getD
          ((0xD3 :: 0x14 :: List.replicate 20 0 : List Nat).length - 22) 0 = 0xD3 ∧
        (0xD3 :: 0x14 :: List.replicate 20 0 : List Nat).getD
          ((0xD3 :: 0x14 :: List.replicate 20 0 : List Nat).length - 21) 0 = 0x14) →
      finalize_mdc ⟨zeroH, []⟩ (0xD3 :: 0x14 :: List.replicate 20 0)
        (0xD3 :: 0x14 :: List.replicate 20 0 : List Nat).length = .error .inv_packet) ∧
    (((0xD3 :: 0x14 :: List.replicate 20 0 : List Nat).getD
          ((0xD3 :: 0x14 :: List.replicate 20 0 : List Nat).length - 22) 0 = 0xD3 ∧
      (0xD3 :: 0x14 :: List.replicate 20 0 : List Nat).getD
          ((0xD3 :: 0x14 :: List.replicate 20 0 : List Nat).length - 21) 0 = 0x14) →
      md_read ⟨zeroH, [] ++ (0xD3 :: 0x14 :: List.replicate 20 0 : List Nat).take
          ((0xD3 :: 0x14 :: List.replicate 20 0 : List Nat).length - 20)⟩ ≠
        ((0xD3 :: 0x14 :: List.replicate 20 0 : List Nat).drop
          ((0xD3 :: 0x14 :: List.replicate 20 0 : List Nat).length - 20)).take 20 →
      finalize_mdc ⟨zeroH, []⟩ (0xD3 :: 0x14 :: List.replicate 20 0)
        (0xD3 :: 0x14 :: List.replicate 20 0 : List Nat).length = .error .bad_mdc)) :=
  ⟨by decide, C2_finalize_mdc_characterization zeroH [] _ (by decide)⟩

/-- C4: if the decrypted prefix fails the self-check (its last two bytes
do not repeat bytes `blocksize - 2` and `blocksize - 1`), `cipher_decode`
returns `chksum` (ChecksumError) and releases zero bytes of body
plaintext: the body-decoding loop is never entered. -/
theorem C4_selfcheck_mismatch (bs : Nat) (E Hh : List Nat → List Nat) (mdcm : Bool)
    (C : List Nat) (h8 : 8 ≤ bs) (h16 : bs ≤ 16) (hlen : bs + 2 ≤ C.length)
    (hbad : ¬ ((gcry_cipher_decrypt (openCipher bs E (!mdcm)) (C.take (bs + 2))).2.getD (bs - 2) 0 =
               (gcry_cipher_decrypt (openCipher bs E (!mdcm)) (C.take (bs + 2))).2.getD bs 0 ∧
               (gcry_cipher_decrypt (openCipher bs E (!mdcm)) (C.take (bs + 2))).2.getD (bs - 1) 0 =
               (gcry_cipher_decrypt (openCipher bs E (!mdcm)) (C.take (bs + 2))).2.getD (bs + 1) 0)) :
    decodeBytes bs E Hh mdcm C = (.error .chksum, []) := by
  unfold decodeBytes cipher_decode
  rw [read_header_spec bs E Hh mdcm C false h8 h16 hlen]
  dsimp only
  rw [if_pos (by tauto)]

/-- Witness for C4: an all-zero prefix whose two self-check bytes were
corrupted to 1, 2 (zero keystream, 8-byte block). -/
theorem C4_selfcheck_mismatch_witness :
    (¬ ((gcry_cipher_decrypt (openCipher 8 (zeroE 8) (!false))
          (([0, 0, 0, 0, 0, 0, 0, 0, 1, 2, 9, 9, 9] : List Nat).take (8 + 2))).2.getD (8 - 2) 0 =
        (gcry_cipher_decrypt (openCipher 8 (zeroE 8) (!false))
          (([0, 0, 0, 0, 0, 0, 0, 0, 1, 2, 9, 9, 9] : List Nat).take (8 + 2))).2.getD 8 0 ∧
        (gcry_cipher_decrypt (openCipher 8 (zeroE 8) (!false))
          (([0, 0, 0, 0, 0, 0, 0, 0, 1, 2, 9, 9, 9] : List Nat).take (8 + 2))).2.getD (8 - 1) 0 =
        (gcry_cipher_decrypt (openCipher 8 (zeroE 8) (!false))
          (([0, 0, 0, 0, 0, 0, 0, 0, 1, 2, 9, 9, 9] : List Nat).take (8 + 2))).2.getD (8 + 1) 0)) ∧
    decodeBytes 8 (zeroE 8) zeroH false [0, 0, 0, 0, 0, 0, 0, 0, 1, 2, 9, 9, 9] =
      (.error .chksum, []) :=
  ⟨by decide, C4_selfcheck_mismatch 8 (zeroE 8) zeroH false _ (by decide) (by decide)
    (by decide) (by decide)⟩

/-- Helper: `write_header` rejects out-of-range block sizes at once. -/
theorem write_header_bad_bs (cfx : cipher_filter) (rand : List Nat)
    (h : cfx.dek.bs < 8 ∨ 16 < cfx.dek.bs) :
    write_header cfx rand = .error .inv_algo := by
  unfold write_header
  rw [if_pos (by omega)]

/-- C6 (amended): block sizes below 8 or above 16 make both encode and
decode fail with `inv_algo` (InvalidAlgorithm) before any header or body
byte is processed (no output, no header record). -/
theorem C6_blocksize_guard (bs : Nat) (E Hh : List Nat → List Nat)
    (umdc blk mdcm : Bool) (rand P C : List Nat) (hbs : bs < 8 ∨ 16 < bs) :
    encodeBytes bs E Hh umdc blk rand P = (.error .inv_algo, none, []) ∧
    decodeBytes bs E Hh mdcm C = (.error .inv_algo, []) := by
  constructor
  · unfold encodeBytes cipher_encode
    dsimp only
    split_ifs with hcond
    · rw [write_header_bad_bs _ rand (by dsimp only [encCfg]; omega)]
    · rw [write_header_bad_bs _ rand (by dsimp only [encCfg]; omega)]
  · unfold decodeBytes cipher_decode read_header
    rw [if_pos (by dsimp only [decCfg]; omega)]

/-- Witness for C6 at block size 4. -/
theorem C6_blocksize_guard_witness :
    ((4 : Nat) < 8 ∨ 16 < (4 : Nat)) ∧
    (encodeBytes 4 (zeroE 4) zeroH false false [0, 0, 0, 0] [1] =
      (.error .inv_algo, none, []) ∧
     decodeBytes 4 (zeroE 4) zeroH false [1, 2, 3, 4, 5, 6, 7] =
      (.error .inv_algo, [])) :=
  ⟨Or.inl (by decide), C6_blocksize_guard 4 (zeroE 4) zeroH false false false _ _ _
    (Or.inl (by decide))⟩

/-- C6 (counterexample): the code accepts every block size from 8 to 16
inclusive, not only 8 and 16: a 12-byte block is accepted and the encode
succeeds rather than failing with InvalidAlgorithm. -/
theorem C6_counterexample :
    (encodeBytes 12 (zeroE 12) zeroH false false (List.replicate 12 0) [1, 2]).1 =
      .ok () := by
  decide

/-- C7 (amended): for a known *nonzero* plaintext length with MDC active
and definite-length framing, the packet record declares
`len + extralen = plaintext length + (blocksize + 2) + 22`. -/
theorem C7_declared_length (bs : Nat) (E Hh : List Nat → List Nat) (umdc : Bool)
    (rand P : List Nat) (h8 : 8 ≤ bs) (h16 : bs ≤ 16)
    (hforced : bs ≠ 8 ∨ umdc = true) (hne : P ≠ []) :
    ((encodeBytes bs E Hh umdc false rand P).2.1.map
      (fun hdr => hdr.len + hdr.extralen)) = some (P.length + (bs + 2) + 22) := by
  rw [encodeBytes_mdc_spec bs E Hh umdc rand P h8 h16 hforced]
  simp [List.length_eq_zero, hne]
  omega

/-- Witness for C7 at a one-byte plaintext. -/
theorem C7_declared_length_witness :
    (((8 : Nat) ≠ 8 ∨ true = true) ∧ ([5] : List Nat) ≠ []) ∧
    ((encodeBytes 8 (zeroE 8) zeroH true false (List.replicate 8 0) [5]).2.1.map
      (fun hdr => hdr.len + hdr.extralen)) = some (([5] : List Nat).length + (8 + 2) + 22) :=
  ⟨⟨Or.inr rfl, by decide⟩,
   C7_declared_length 8 (zeroE 8) zeroH true (List.replicate 8 0) [5]
     (by decide) (by decide) (Or.inr rfl) (by decide)⟩

/-- C7 (counterexample): for a zero-length plaintext the 22 bytes of the
MDC trailer are *not* added to the declared length (the code only adds 22
when `datalen` is nonzero), so the header under-declares: the declared
length is `blocksize + 2`, not `0 + (blocksize + 2) + 22`. -/
theorem C7_counterexample :
    ((encodeBytes 8 (zeroE 8) zeroH true false (List.replicate 8 0) []).2.1.map
      (fun hdr => hdr.len + hdr.extralen)) = some 10 ∧ (10 : Nat) ≠ 0 + (8 + 2) + 22 := by
  constructor
  · decide
  · decide

/-- Characterization of `write_header` in block (partial-length) mode with
MDC active: budget starts at `BUFSIZE` and is reduced by the prefix
(`blocksize + 2`) and by `22 + 1` (trailer plus version byte). -/
theorem write_header_blk (bs : Nat) (E Hh : List Nat → List Nat) (umdc : Bool)
    (d : Nat) (rand : List Nat) (h8 : 8 ≤ bs) (h16 : bs ≤ 16)
    (hm : (if bs ≠ 8 then true else umdc) = true) :
    write_header { encCfg bs E Hh umdc true with datalen := d } rand =
      .ok ({ encCfg bs E Hh umdc true with
               datalen := if d ≠ 0 then d + 22 else d
               blkmode := ⟨true, BUFSIZE - (bs + 2) - 23, 0⟩
               mdc := some ⟨Hh, pfxPlain bs rand⟩
               hd := some (gcry_cipher_sync
                 (gcry_cipher_encrypt (openCipher bs E false) (pfxPlain bs rand)).1) },
           ⟨true, false, 0, 0⟩,
           (gcry_cipher_encrypt (openCipher bs E false) (pfxPlain bs rand)).2) := by
  unfold write_header
  dsimp only [encCfg]
  rw [if_neg (by omega)]
  rw [hm]
  simp only [eq_self_iff_true, true_and, if_true, Bool.not_true]
  split_ifs with hd0 <;>
    simp_all [mdWrite, gcry_md_write, pfxPlain, openCipher, blkmode_t.mk.injEq, encCfg]

/-- C9 (amended): with integrity protection active in block mode, the
encoder reduces the chunk budget left after the header by the prefix
length `blocksize + 2` and by the constant 23 (22 bytes of MDC trailer
plus 1 version byte), not by 22. -/
theorem C9_blk_budget (bs : Nat) (E Hh : List Nat → List Nat) (d : Nat)
    (rand : List Nat) (h8 : 8 ≤ bs) (h16 : bs ≤ 16) :
    ((write_header { encCfg bs E Hh true true with datalen := d } rand).toOption.map
      (fun r => r.1.blkmode.nleft)) = some (BUFSIZE - (bs + 2) - 23) := by
  rw [write_header_blk bs E Hh true d rand h8 h16 (by split_ifs <;> rfl)]
  rfl

/-- Witness for C9 at an 8-byte block. -/
theorem C9_blk_budget_witness :
    (8 ≤ (8 : Nat) ∧ (8 : Nat) ≤ 16) ∧
    ((write_header { encCfg 8 (zeroE 8) zeroH true true with datalen := 9000 }
        (List.replicate 8 0)).toOption.map (fun r => r.1.blkmode.nleft)) =
      some (BUFSIZE - (8 + 2) - 23) :=
  ⟨⟨by decide, by decide⟩,
   C9_blk_budget 8 (zeroE 8) zeroH 9000 (List.replicate 8 0) (by decide) (by decide)⟩

/-- C9 (counterexample): the budget reduction for the trailer is 23, not
the claimed 22: concretely, with an 8-byte block the budget after the
header is `8192 - 10 - 23 = 8159`, not `8192 - 10 - 22 = 8160`. -/
theorem C9_counterexample :
    ((write_header { encCfg 8 (zeroE 8) zeroH true true with datalen := 9000 }
        (List.replicate 8 0)).toOption.map (fun r => r.1.blkmode.nleft)) = some 8159 ∧
    (8159 : Nat) ≠ BUFSIZE - (8 + 2) - 22 := by
  constructor
  · decide
  · decide

/-- A block-mode filter state at a chunk boundary (`nleft = 0`), as it
arises between chunks during a chunked MDC encode: handles open, budget
exhausted. -/
def wpbBoundaryCfx : cipher_filter :=
  { encCfg 8 (zeroE 8) zeroH true true with
      blkmode := ⟨true, 0, 0⟩
      mdc := some ⟨zeroH, []⟩
      hd := some (openCipher 8 (zeroE 8) false) }

/-- C3: the final-chunk branch of `write_partial_block` is buggy for
remainders in `[192, 512]`.  At a chunk boundary with 300 bytes
remaining, the code announces the definite length 300 (the two bytes
`[192, 108]`, which the length parser reads back as 300), but because the
C code reuses the already-decremented `pktlen` it sets the chunk budget
to `300 - 192 = 108`: only 108 data bytes are emitted (110 output bytes
with the two length bytes), the budget drops to zero, and `r_len` is left
at 192, so the announced chunk sizes cannot sum to the plaintext length
and chunking does not stop. -/
theorem C3_final_chunk_budget_bug :
    (write_partial_block ⟨List.replicate 300 5, false⟩ 300 wpbBoundaryCfx).1 = .ok () ∧
    (cdk_pkt_read_len ⟨[192, 108], false⟩).1 = some (300, false) ∧
    (write_partial_block ⟨List.replicate 300 5, false⟩ 300 wpbBoundaryCfx).2.2.2.2.take 2 =
      [192, 108] ∧
    (write_partial_block ⟨List.replicate 300 5, false⟩ 300 wpbBoundaryCfx).2.2.2.2.length =
      110 ∧
    (write_partial_block ⟨List.replicate 300 5, false⟩ 300
      wpbBoundaryCfx).2.2.2.1.blkmode.nleft = 0 ∧
    (write_partial_block ⟨List.replicate 300 5, false⟩ 300 wpbBoundaryCfx).2.2.1 = 192 := by
  refine ⟨by decide, by decide, by decide, by decide, by decide, by decide⟩

/-- C1 (amended): the round-trip property holds for definite-length
framing: (a) with MDC active for every plaintext `P` whose final decode
read covers the 22-byte trailer (`22 ≤ (|P| + 22) % BUFSIZE`); (b) with
MDC off (8-byte block, integrity not requested) for every plaintext; and
(c) a zero-length plaintext with MDC active produces a valid body of
exactly prefix + trailer (`(bs + 2) + 22` bytes) that decodes to zero
bytes passing verification.  (Chunked framing does not round-trip; see
the counterexample and C3/C5/C9.) -/
theorem C1_roundtrip_definite (bs : Nat) (E Hh : List Nat → List Nat) (umdc : Bool)
    (rand rand8 P Q : List Nat)
    (h8 : 8 ≤ bs) (h16 : bs ≤ 16) (hrand : rand.length = bs)
    (hforced : bs ≠ 8 ∨ umdc = true)
    (hmod : 22 ≤ (P.length + 22) % BUFSIZE)
    (hrand8 : rand8.length = 8) :
    ((encodeBytes bs E Hh umdc false rand P).1 = .ok () ∧
     decodeBytes bs E Hh true (encodeBytes bs E Hh umdc false rand P).2.2 = (.ok (), P)) ∧
    ((encodeBytes 8 E Hh false false rand8 Q).1 = .ok () ∧
     decodeBytes 8 E Hh false (encodeBytes 8 E Hh false false rand8 Q).2.2 = (.ok (), Q)) ∧
    ((encodeBytes bs E Hh umdc false rand []).1 = .ok () ∧
     (encodeBytes bs E Hh umdc false rand []).2.2.length = (bs + 2) + 22 ∧
     decodeBytes bs E Hh true (encodeBytes bs E Hh umdc false rand []).2.2 =
       (.ok (), [])) := by
  refine ⟨⟨?_, ?_⟩, ⟨?_, ?_⟩, ⟨?_, ?_, ?_⟩⟩
  · rw [encodeBytes_mdc_spec bs E Hh umdc rand P h8 h16 hforced]
  · rw [encodeBytes_mdc_spec bs E Hh umdc rand P h8 h16 hforced]
    exact decodeBytes_of_enc_mdc bs E Hh rand P h8 h16 hrand hmod
  · rw [encodeBytes_plain_spec E Hh rand8 Q]
  · rw [encodeBytes_plain_spec E Hh rand8 Q]
    exact decodeBytes_of_enc_plain E Hh rand8 Q hrand8
  · rw [encodeBytes_mdc_spec bs E Hh umdc rand [] h8 h16 hforced]
  · rw [encodeBytes_mdc_spec bs E Hh umdc rand [] h8 h16 hforced]
    dsimp only
    rw [gcry_enc_length]
    simp [pfxPlain_length bs rand hrand, mdcTrailer_length]
  · rw [encodeBytes_mdc_spec bs E Hh umdc rand [] h8 h16 hforced]
    exact decodeBytes_of_enc_mdc bs E Hh rand [] h8 h16 hrand (by decide)

/-- Witness for C1 at a 3-byte MDC plaintext and a 1-byte plain plaintext. -/
theorem C1_roundtrip_definite_witness :
    ((8 ≤ (8 : Nat) ∧ (8 : Nat) ≤ 16 ∧ (List.replicate 8 0 : List Nat).length = 8 ∧
      ((8 : Nat) ≠ 8 ∨ true = true) ∧
      22 ≤ (([1, 2, 3] : List Nat).length + 22) % BUFSIZE)) ∧
    (((encodeBytes 8 (zeroE 8) zeroH true false (List.replicate 8 0) [1, 2, 3]).1 = .ok () ∧
      decodeBytes 8 (zeroE 8) zeroH true
        (encodeBytes 8 (zeroE 8) zeroH true false (List.replicate 8 0) [1, 2, 3]).2.2 =
        (.ok (), [1, 2, 3])) ∧
     ((encodeBytes 8 (zeroE 8) zeroH false false (List.replicate 8 0) [7]).1 = .ok () ∧
      decodeBytes 8 (zeroE 8) zeroH false
        (encodeBytes 8 (zeroE 8) zeroH false false (List.replicate 8 0) [7]).2.2 =
        (.ok (), [7])) ∧
     ((encodeBytes 8 (zeroE 8) zeroH true false (List.replicate 8 0) []).1 = .ok () ∧
      (encodeBytes 8 (zeroE 8) zeroH true false (List.replicate 8 0) []).2.2.length =
        (8 + 2) + 22 ∧
      decodeBytes 8 (zeroE 8) zeroH true
        (encodeBytes 8 (zeroE 8) zeroH true false (List.replicate 8 0) []).2.2 =
        (.ok (), []))) :=
  ⟨⟨by decide, by decide, by decide, Or.inr rfl, by decide⟩,
   C1_roundtrip_definite 8 (zeroE 8) zeroH true (List.replicate 8 0) (List.replicate 8 0)
     [1, 2, 3] [7] (by decide) (by decide) (by decide) (Or.inr rfl) (by decide) (by decide)⟩

/-- C1 (counterexample): the round-trip claim fails even for
definite-length framing with MDC active: for a plaintext of 8170 bytes
the remaining byte count after the prefix is `8170 + 22 = 8192`, an exact
multiple of the read buffer size, so the decoder's end-of-file test never
fires while data is in hand, trailer verification is skipped entirely,
and decode "succeeds" returning the plaintext *plus* the 22 trailer
bytes — not the original plaintext. -/
theorem C1_counterexample :
    ¬ (decodeBytes 8 (zeroE 8) zeroH true
        (encodeBytes 8 (zeroE 8) zeroH true false (List.replicate 8 0)
          (List.replicate 8170 1)).2.2 = (.ok (), List.replicate 8170 1)) := by
  rw [encodeBytes_mdc_spec 8 (zeroE 8) zeroH true (List.replicate 8 0)
    (List.replicate 8170 1) (by norm_num) (by norm_num) (Or.inr rfl)]
  dsimp only
  rw [decodeBytes_of_enc_mdc_skip 8 (zeroE 8) zeroH (List.replicate 8 0)
    (List.replicate 8170 1) (by norm_num) (by norm_num) (by simp)
    (by rw [List.length_replicate]; rfl)]
  intro hcon
  rw [Prod.mk.injEq] at hcon
  have hlen := congrArg List.length hcon.2
  rw [List.length_append, mdcTrailer_length] at hlen
  omega

/-- C8: on a (definite-length) encode with MDC active, the trailer closing
the body is exactly 22 bytes — the fixed tag `0xD3 0x14` followed by the
20-byte digest — where the 2-byte tag enters the accumulator as the very
last hashed bytes before finalization (the hashed byte string is
prefix ++ plaintext ++ [0xD3, 0x14]); the whole body, trailer included,
is one continuous CFB encryption (so the trailer is encrypted under the
continuing keystream, never in clear, and is not a separate packet). -/
theorem C8_mdc_trailer (bs : Nat) (E Hh : List Nat → List Nat) (umdc : Bool)
    (rand P : List Nat) (h8 : 8 ≤ bs) (h16 : bs ≤ 16)
    (hforced : bs ≠ 8 ∨ umdc = true) :
    (mdcTrailer Hh (pfxPlain bs rand ++ P ++ [0xD3, 0x14])).length = 22 ∧
    (mdcTrailer Hh (pfxPlain bs rand ++ P ++ [0xD3, 0x14])).take 2 = [0xD3, 0x14] ∧
    (mdcTrailer Hh (pfxPlain bs rand ++ P ++ [0xD3, 0x14])).drop 2 =
      md_read ⟨Hh, pfxPlain bs rand ++ P ++ [0xD3, 0x14]⟩ ∧
    encodeBytes bs E Hh umdc false rand P =
      (.ok (),
       some ⟨true, false, (if P.length = 0 then 0 else P.length + 22), bs + 2⟩,
       (gcry_cipher_encrypt (openCipher bs E false)
         (pfxPlain bs rand ++ P ++
          mdcTrailer Hh (pfxPlain bs rand ++ P ++ [0xD3, 0x14]))).2) := by
  refine ⟨mdcTrailer_length _ _, by simp [mdcTrailer], by simp [mdcTrailer], ?_⟩
  exact encodeBytes_mdc_spec bs E Hh umdc rand P h8 h16 hforced

/-- Witness for C8 at a 16-byte block with `use_mdc = false` (forced). -/
theorem C8_mdc_trailer_witness :
    (8 ≤ (16 : Nat) ∧ (16 : Nat) ≤ 16 ∧ ((16 : Nat) ≠ 8 ∨ false = true)) ∧
    ((mdcTrailer zeroH (pfxPlain 16 (List.replicate 16 0) ++ [9] ++ [0xD3, 0x14])).length = 22 ∧
     (mdcTrailer zeroH (pfxPlain 16 (List.replicate 16 0) ++ [9] ++ [0xD3, 0x14])).take 2 =
       [0xD3, 0x14] ∧
     (mdcTrailer zeroH (pfxPlain 16 (List.replicate 16 0) ++ [9] ++ [0xD3, 0x14])).drop 2 =
       md_read ⟨zeroH, pfxPlain 16 (List.replicate 16 0) ++ [9] ++ [0xD3, 0x14]⟩ ∧
     encodeBytes 16 (zeroE 16) zeroH false false (List.replicate 16 0) [9] =
       (.ok (),
        some ⟨true, false, (if ([9] : List Nat).length = 0 then 0 else ([9] : List Nat).length + 22), 16 + 2⟩,
        (gcry_cipher_encrypt (openCipher 16 (zeroE 16) false)
          (pfxPlain 16 (List.replicate 16 0) ++ [9] ++
           mdcTrailer zeroH (pfxPlain 16 (List.replicate 16 0) ++ [9] ++ [0xD3, 0x14]))).2)) :=
  ⟨⟨by decide, by decide, Or.inl (by decide)⟩,
   C8_mdc_trailer 16 (zeroE 16) zeroH false (List.replicate 16 0) [9]
     (by decide) (by decide) (Or.inl (by decide))⟩

/-- C5 (amended): for every *definite-length* encode with a block size
other than 8, integrity protection is forced on even when the caller set
`use_mdc = false`: the packet record carries the integrity-protected
type, and the body ends in the 22-byte encrypted MDC trailer.  (In
chunked mode the forced hash is opened and the MDC packet type is chosen
too, but the encode fails with an end-of-file error before appending the
trailer; see the counterexample.) -/
theorem C5_forced_mdc_definite (bs : Nat) (E Hh : List Nat → List Nat)
    (rand P : List Nat) (h8 : 8 ≤ bs) (h16 : bs ≤ 16) (hne8 : bs ≠ 8) :
    (encodeBytes bs E Hh false false rand P).1 = .ok () ∧
    ((encodeBytes bs E Hh false false rand P).2.1.map (fun hdr => hdr.is_mdc)) =
      some true ∧
    (encodeBytes bs E Hh false false rand P).2.2 =
      (gcry_cipher_encrypt (openCipher bs E false) (pfxPlain bs rand ++ P)).2 ++
      (gcry_cipher_encrypt
        (gcry_cipher_encrypt (openCipher bs E false) (pfxPlain bs rand ++ P)).1
        (mdcTrailer Hh (pfxPlain bs rand ++ P ++ [0xD3, 0x14]))).2 ∧
    (gcry_cipher_encrypt
      (gcry_cipher_encrypt (openCipher bs E false) (pfxPlain bs rand ++ P)).1
      (mdcTrailer Hh (pfxPlain bs rand ++ P ++ [0xD3, 0x14]))).2.length = 22 := by
  rw [encodeBytes_mdc_spec bs E Hh false rand P h8 h16 (Or.inl hne8)]
  refine ⟨rfl, rfl, ?_, ?_⟩
  · rw [gcry_enc_append]
  · rw [gcry_enc_length, mdcTrailer_length]

/-- Witness for C5 at a 16-byte block and a 2-byte plaintext. -/
theorem C5_forced_mdc_definite_witness :
    (8 ≤ (16 : Nat) ∧ (16 : Nat) ≤ 16 ∧ (16 : Nat) ≠ 8) ∧
    ((encodeBytes 16 (zeroE 16) zeroH false false (List.replicate 16 0) [1, 2]).1 =
      .ok () ∧
     ((encodeBytes 16 (zeroE 16) zeroH false false (List.replicate 16 0)
        [1, 2]).2.1.map (fun hdr => hdr.is_mdc)) = some true ∧
     (encodeBytes 16 (zeroE 16) zeroH false false (List.replicate 16 0) [1, 2]).2.2 =
       (gcry_cipher_encrypt (openCipher 16 (zeroE 16) false)
         (pfxPlain 16 (List.replicate 16 0) ++ [1, 2])).2 ++
       (gcry_cipher_encrypt
         (gcry_cipher_encrypt (openCipher 16 (zeroE 16) false)
           (pfxPlain 16 (List.replicate 16 0) ++ [1, 2])).1
         (mdcTrailer zeroH (pfxPlain 16 (List.replicate 16 0) ++ [1, 2] ++
           [0xD3, 0x14]))).2 ∧
     (gcry_cipher_encrypt
       (gcry_cipher_encrypt (openCipher 16 (zeroE 16) false)
         (pfxPlain 16 (List.replicate 16 0) ++ [1, 2])).1
       (mdcTrailer zeroH (pfxPlain 16 (List.replicate 16 0) ++ [1, 2] ++
         [0xD3, 0x14]))).2.length = 22) :=
  ⟨⟨by decide, by decide, by decide⟩,
   C5_forced_mdc_definite 16 (zeroE 16) zeroH (List.replicate 16 0) [1, 2]
     (by decide) (by decide) (by decide)⟩

/-- One `write_partial_block` call inside a chunk whose budget is not yet
exhausted and is fully backed by input: it reads exactly the budget,
hashes and encrypts it, and zeroes the budget. -/
theorem wpb_inside_chunk (f : CFile) (r : Int) (cfx : cipher_filter)
    (m : GcryMd) (h : GcryCipher)
    (hnl : cfx.blkmode.nleft ≠ 0) (hnlsz : cfx.blkmode.nleft ≤ BUFSIZE)
    (hmdc : cfx.mdc = some m) (hhd : cfx.hd = some h)
    (hread : cfx.blkmode.nleft ≤ f.buf.length) :
    write_partial_block f r cfx =
      (.ok (), ⟨f.buf.drop cfx.blkmode.nleft, f.eof⟩, r - (cfx.blkmode.nleft : Int),
       { mdWrite cfx (f.buf.take cfx.blkmode.nleft) with
           hd := some (gcry_cipher_encrypt h (f.buf.take cfx.blkmode.nleft)).1
           blkmode := ⟨cfx.blkmode.on', 0, cfx.blkmode.size⟩ },
       (gcry_cipher_encrypt h (f.buf.take cfx.blkmode.nleft)).2) := by
  have htk : (f.buf.take cfx.blkmode.nleft).length = cfx.blkmode.nleft := by
    rw [List.length_take]
    omega
  unfold write_partial_block
  rw [if_neg hnl]
  dsimp only
  rw [show min cfx.blkmode.nleft (BUFSIZE + 1) = cfx.blkmode.nleft from by omega]
  simp only [fread, htk]
  rw [if_neg (by omega)]
  rw [show (decide (cfx.blkmode.nleft < cfx.blkmode.nleft)) = false from by simp]
  simp only [Bool.or_false, mdWrite_hd, hhd]
  simp only [List.nil_append]
  simp [mdWrite_blk]

/-- One `write_partial_block` call at a chunk boundary with a small
positive remainder (at most 191, below all higher tiers): the final
definite chunk is announced by one byte, read in full and consumed. -/
theorem wpb_final_small (f : CFile) (r : Int) (cfx : cipher_filter)
    (m : GcryMd) (h : GcryCipher)
    (hnl : cfx.blkmode.nleft = 0) (hrpos : 0 < r) (hrsmall : r < 192)
    (hmdc : cfx.mdc = some m) (hhd : cfx.hd = some h)
    (hread : r.toNat ≤ f.buf.length) :
    write_partial_block f r cfx =
      (.ok (), ⟨f.buf.drop r.toNat, f.eof⟩, r - (r.toNat : Int),
       { mdWrite cfx (f.buf.take r.toNat) with
           hd := some (gcry_cipher_encrypt h (f.buf.take r.toNat)).1
           blkmode := ⟨cfx.blkmode.on', 0, cfx.blkmode.size⟩ },
       [r.toNat] ++ (gcry_cipher_encrypt h (f.buf.take r.toNat)).2) := by
  have htk : (f.buf.take r.toNat).length = r.toNat := by
    rw [List.length_take]
    omega
  unfold write_partial_block
  rw [if_pos hnl]
  rw [if_neg (show ¬(r > (BUFSIZE : Int)) from by
    have hb : ((BUFSIZE : Nat) : Int) = 8192 := rfl
    omega)]
  rw [if_neg (show ¬(r > (512 : Int)) from by omega)]
  dsimp only
  rw [if_pos (show r.toNat < 192 from by omega)]
  dsimp only
  rw [show min r.toNat (BUFSIZE + 1) = r.toNat from by
    have h192 : r.toNat < 192 := by omega
    have hb : BUFSIZE + 1 = 8193 := rfl
    omega]
  simp only [fread, htk]
  rw [if_neg (show ¬(r.toNat = 0) from by omega)]
  rw [show (decide (r.toNat < r.toNat)) = false from by simp]
  simp only [Bool.or_false, mdWrite_hd, hhd]
  simp [mdWrite_blk]
  and_intros <;> rfl

/-- One `write_partial_block` call at a chunk boundary with zero
remainder: the code announces a zero-length final chunk (the byte 0),
then the zero-byte read returns nothing and the call fails with the
end-of-file error — this is how every chunked encode ends, before any
MDC trailer can be written. -/
theorem wpb_boundary_zero (f : CFile) (cfx : cipher_filter)
    (hnl : cfx.blkmode.nleft = 0) :
    write_partial_block f 0 cfx =
      (.error .eof, ⟨f.buf, f.eof⟩, 0,
       { cfx with blkmode := ⟨cfx.blkmode.on', 0, cfx.blkmode.size⟩ }, [0]) := by
  unfold write_partial_block
  rw [if_pos hnl]
  rw [if_neg (show ¬((0 : Int) > (BUFSIZE : Int)) from by
    have hb : ((BUFSIZE : Nat) : Int) = 8192 := rfl
    omega)]
  rw [if_neg (show ¬((0 : Int) > (512 : Int)) from by omega)]
  dsimp only
  simp [fread]

/-- Cipher handle after the header of the C5 chunked-encode trace. -/
def C5h1 : GcryCipher :=
  (gcry_cipher_encrypt (openCipher 16 (zeroE 16) false)
    (pfxPlain 16 (List.replicate 16 0))).1

/-- Hash handle after the header of the C5 trace. -/
def C5m1 : GcryMd := ⟨zeroH, pfxPlain 16 (List.replicate 16 0)⟩

/-- Filter state after the header of the C5 trace (16-byte block, MDC
forced, block mode, 8192-byte input). -/
def C5cfx1 : cipher_filter :=
  { encCfg 16 (zeroE 16) zeroH false true with
      datalen := 8192 + 22
      blkmode := ⟨true, 8151, 0⟩
      mdc := some C5m1
      hd := some C5h1 }

/-- First chunk body of the C5 trace (8151 zero bytes). -/
def C5b1 : List Nat := (List.replicate 8192 0).take C5cfx1.blkmode.nleft

/-- Input left over after the first chunk (41 zero bytes). -/
def C5rest : List Nat := (List.replicate 8192 0).drop C5cfx1.blkmode.nleft

/-- Filter state after the first chunk of the C5 trace. -/
def C5cfx2 : cipher_filter :=
  { mdWrite C5cfx1 C5b1 with
      hd := some (gcry_cipher_encrypt C5h1 C5b1).1
      blkmode := ⟨C5cfx1.blkmode.on', 0, C5cfx1.blkmode.size⟩ }

/-- Second (final, 41-byte) chunk body of the C5 trace. -/
def C5b2 : List Nat := C5rest.take (41 : Int).toNat

/-- Input left over after the final chunk (empty). -/
def C5rest2 : List Nat := C5rest.drop (41 : Int).toNat

/-- Filter state after the final chunk of the C5 trace. -/
def C5cfx3 : cipher_filter :=
  { mdWrite C5cfx2 C5b2 with
      hd := some (gcry_cipher_encrypt (gcry_cipher_encrypt C5h1 C5b1).1 C5b2).1
      blkmode := ⟨C5cfx2.blkmode.on', 0, C5cfx2.blkmode.size⟩ }

theorem C5rest_length : C5rest.length = 41 := by
  unfold C5rest
  rw [List.length_drop, List.length_replicate,
      show C5cfx1.blkmode.nleft = 8151 from rfl]

theorem C5b1_length : C5b1.length = 8151 := by
  unfold C5b1
  rw [List.length_take, List.length_replicate,
      show C5cfx1.blkmode.nleft = 8151 from rfl]
  decide

theorem C5b2_length : C5b2.length = 41 := by
  unfold C5b2
  rw [List.length_take, C5rest_length]
  decide

theorem C5_step1 (out : List Nat) :
    encode_loop 8194 C5cfx1 ⟨List.replicate 8192 0, false⟩ ((8192 : Nat) : Int) out =
      encode_loop 8193 C5cfx2 ⟨C5rest, false⟩ (41 : Int)
        (out ++ (gcry_cipher_encrypt C5h1 C5b1).2) := by
  rw [show (8194 : Nat) = 8193 + 1 from rfl, encode_loop]
  rw [if_neg (show ¬((⟨List.replicate 8192 0, false⟩ : CFile).eof = true) from by simp)]
  rw [if_pos (show C5cfx1.blkmode.on' = true from rfl)]
  have hw1 := wpb_inside_chunk ⟨List.replicate 8192 0, false⟩ ((8192 : Nat) : Int)
    C5cfx1 C5m1 C5h1 (by decide) (by decide) rfl rfl
    (by show (8151 : Nat) ≤ (List.replicate 8192 (0 : Nat)).length
        rw [List.length_replicate]; norm_num)
  rw [hw1]
  dsimp only
  rw [show (List.replicate 8192 0).take C5cfx1.blkmode.nleft = C5b1 from rfl]
  rw [show (List.replicate 8192 0).drop C5cfx1.blkmode.nleft = C5rest from rfl]
  rw [show ((8192 : Nat) : Int) - (C5cfx1.blkmode.nleft : Int) = (41 : Int) from by
        rw [show C5cfx1.blkmode.nleft = 8151 from rfl]; decide]
  rw [show ({ mdWrite C5cfx1 C5b1 with
        hd := some (gcry_cipher_encrypt C5h1 C5b1).1
        blkmode := ⟨C5cfx1.blkmode.on', 0, C5cfx1.blkmode.size⟩ } : cipher_filter)
      = C5cfx2 from rfl]

theorem C5_step2 (out : List Nat) :
    encode_loop 8193 C5cfx2 ⟨C5rest, false⟩ (41 : Int) out =
      encode_loop 8192 C5cfx3 ⟨C5rest2, false⟩ (0 : Int)
        (out ++ ([(41 : Int).toNat] ++
          (gcry_cipher_encrypt (gcry_cipher_encrypt C5h1 C5b1).1 C5b2).2)) := by
  rw [show (8193 : Nat) = 8192 + 1 from rfl, encode_loop]
  rw [if_neg (show ¬((⟨C5rest, false⟩ : CFile).eof = true) from by simp)]
  rw [if_pos (show C5cfx2.blkmode.on' = true from rfl)]
  have hw2 := wpb_final_small ⟨C5rest, false⟩ (41 : Int) C5cfx2
    (gcry_md_write C5m1 C5b1) (gcry_cipher_encrypt C5h1 C5b1).1
    rfl (by decide) (by decide) rfl rfl
    (by dsimp only
        rw [C5rest_length]; decide)
  rw [hw2]
  dsimp only
  rw [show C5rest.take (41 : Int).toNat = C5b2 from rfl]
  rw [show C5rest.drop (41 : Int).toNat = C5rest2 from rfl]
  rw [show (41 : Int) - ((41 : Int).toNat : Int) = (0 : Int) from by decide]
  rw [show ({ mdWrite C5cfx2 C5b2 with
        hd := some (gcry_cipher_encrypt (gcry_cipher_encrypt C5h1 C5b1).1 C5b2).1
        blkmode := ⟨C5cfx2.blkmode.on', 0, C5cfx2.blkmode.size⟩ } : cipher_filter)
      = C5cfx3 from rfl]

theorem C5_step3 (out : List Nat) :
    encode_loop 8192 C5cfx3 ⟨C5rest2, false⟩ (0 : Int) out =
      (.error .eof,
       { C5cfx3 with blkmode := ⟨C5cfx3.blkmode.on', 0, C5cfx3.blkmode.size⟩ },
       ⟨C5rest2, false⟩, (0 : Int), out ++ [0]) := by
  rw [show (8192 : Nat) = 8191 + 1 from rfl, encode_loop]
  rw [if_neg (show ¬((⟨C5rest2, false⟩ : CFile).eof = true) from by simp)]
  rw [if_pos (show C5cfx3.blkmode.on' = true from rfl)]
  have hw3 := wpb_boundary_zero ⟨C5rest2, false⟩ C5cfx3 rfl
  rw [hw3]

theorem C5_trace :
    cipher_encode_file C5cfx1 ⟨List.replicate 8192 0, false⟩ =
      (.error .eof,
       { C5cfx3 with blkmode := ⟨C5cfx3.blkmode.on', 0, C5cfx3.blkmode.size⟩ },
       (gcry_cipher_encrypt C5h1 C5b1).2 ++
         ([(41 : Int).toNat] ++
           (gcry_cipher_encrypt (gcry_cipher_encrypt C5h1 C5b1).1 C5b2).2) ++ [0]) := by
  unfold cipher_encode_file
  dsimp only
  simp only [List.length_replicate]
  rw [show (8192 + 2 : Nat) = 8194 from rfl]
  rw [C5_step1 [], C5_step2, C5_step3]
  dsimp only
  rw [List.nil_append]

/-- C5 counterexample: the spec says a chunked (partial-length) encode
emits the chunk stream and then the MDC packet, but on an 8192-byte
plaintext with a 16-byte block the encoder reaches a chunk boundary with
zero bytes left, emits the terminating zero announce byte, and returns
`CDK_EOF` from inside the loop: `cipher_encode` reports the error and the
MDC trailer is never written (the body is 8151 + 1 + 41 + 1 = 8194 bytes
after the 18-byte header prefix, 8212 in all, with no trailer). -/
theorem C5_counterexample :
    (encodeBytes 16 (zeroE 16) zeroH false true (List.replicate 16 0)
      (List.replicate 8192 0)).1 = .error .eof ∧
    (encodeBytes 16 (zeroE 16) zeroH false true (List.replicate 16 0)
      (List.replicate 8192 0)).2.2.length = 8212 := by
  unfold encodeBytes cipher_encode
  dsimp only
  simp only [List.length_replicate]
  rw [if_neg (show ¬(8192 < BUFSIZE ∧
      (encCfg 16 (zeroE 16) zeroH false true).blkmode.on' = true) from
    fun hcon => absurd hcon.1 (by decide))]
  rw [write_header_blk 16 (zeroE 16) zeroH false 8192 (List.replicate 16 0)
    (by decide) (by decide) (by decide)]
  dsimp only
  rw [if_pos (show (8192 : Nat) ≠ 0 from by decide)]
  rw [show BUFSIZE - (16 + 2) - 23 = 8151 from rfl]
  rw [sync_of_disabled ((gcry_cipher_encrypt (openCipher 16 (zeroE 16) false)
        (pfxPlain 16 (List.replicate 16 0))).1)
      (by rw [gcry_enc_syncEnabled]; rfl)]
  rw [show (⟨zeroH, pfxPlain 16 (List.replicate 16 0)⟩ : GcryMd) = C5m1 from rfl]
  rw [show (gcry_cipher_encrypt (openCipher 16 (zeroE 16) false)
        (pfxPlain 16 (List.replicate 16 0))).1 = C5h1 from rfl]
  rw [show ({ encCfg 16 (zeroE 16) zeroH false true with
        datalen := 8192 + 22
        blkmode := ⟨true, 8151, 0⟩
        mdc := some C5m1
        hd := some C5h1 } : cipher_filter) = C5cfx1 from rfl]
  rw [C5_trace]
  refine ⟨rfl, ?_⟩
  simp only [List.length_append, List.length_cons, List.length_nil, gcry_enc_length]
  rw [pfxPlain_length 16 (List.replicate 16 0) (by simp), C5b1_length, C5b2_length]
